import Mathlib

/-!
Verification development for the node-tree inlining subsystem declared in
`source/blender/blenkernel/BKE_inlined_node_tree.h`.

The repository ships only the header: the data model (`XNode`, `XSocket`,
`XInputSocket`, `XOutputSocket`, `XGroupInput`, `XParentNode`,
`InlinedNodeTree`) and the inline accessors are source code; the bodies of
`InlinedNodeTree::InlinedNodeTree`, `expand_group_node` and `create_node`
are not part of the excerpt.  The data model below is embedded from the
header; the construction algorithm is modelled from the specification
(section 4.2: the recursive expansion, the per-scope socket index, the
symmetric link resolution, and the GroupInput reconciliation).
-/

/-- A virtual node of the read-only source tree: either a plain node
(`groupTree = none`) or a group node referencing a sub-tree identity,
with ordered input/output socket counts. -/
structure VNode where
  groupTree : Option Nat
  numInputs : Nat
  numOutputs : Nat
deriving DecidableEq, Repr

/-- The source endpoint of a virtual link: either an output socket of a
node of the same tree, or one of the tree's own boundary (group interface)
inputs. -/
inductive VLinkSrc where
  | nodeOutput (node socket : Nat)
  | boundaryInput (index : Nat)
deriving DecidableEq, Repr

/-- A virtual link: a source endpoint wired into the input socket
`dstSocket` of node `dstNode`. -/
structure VLink where
  src : VLinkSrc
  dstNode : Nat
  dstSocket : Nat
deriving DecidableEq, Repr

/-- The immutable virtual tree: ordered nodes and the link set. -/
structure VirtualNodeTree where
  nodes : List VNode
  links : List VLink
deriving DecidableEq, Repr

/-- The tree cache collaborator: tree identity to virtual tree
(mirrors `BTreeVTreeMap`). -/
def BTreeVTreeMap : Type := Nat → Option VirtualNodeTree

/-- Reference to an originating virtual node (mirrors `const VNode *`). -/
structure VNodeRef where
  tree : Nat
  node : Nat
deriving DecidableEq, Repr

/-- Reference to an originating virtual socket
(mirrors `const VInputSocket *` / `const VOutputSocket *`). -/
structure VSocketRef where
  tree : Nat
  node : Nat
  socket : Nat
deriving DecidableEq, Repr

/-- An inlined socket (mirrors `XInputSocket` / `XOutputSocket`, both of
which extend `XSocket` with its `m_node` back-reference and `m_id`).
Linked sockets are stored as dense socket ids; an input additionally
stores its linked group inputs (`m_linked_group_inputs`). -/
inductive XSocket where
  | input (node : Nat) (id : Nat) (vsocket : VSocketRef)
      (linkedSockets : List Nat) (linkedGroupInputs : List Nat)
  | output (node : Nat) (id : Nat) (vsocket : VSocketRef)
      (linkedSockets : List Nat)
deriving DecidableEq, Repr

/-- An inlined node (mirrors `XNode`): originating virtual node, optional
parent marker, dense id, ordered input/output socket id lists. -/
structure XNode where
  vnode : VNodeRef
  parent : Option Nat
  id : Nat
  inputs : List Nat
  outputs : List Nat
deriving DecidableEq, Repr

/-- A parent boundary marker (mirrors `XParentNode`). -/
structure XParentNode where
  vnode : VNodeRef
  parent : Option Nat
deriving DecidableEq, Repr

/-- An unresolved group boundary input (mirrors `XGroupInput`). -/
structure XGroupInput where
  vsocket : VSocketRef
  parent : Option Nat
  linkedSockets : List Nat
deriving DecidableEq, Repr

/-- The inlined graph (mirrors `InlinedNodeTree`): nodes and sockets are
indexed by their dense ids (`m_node_by_id`, `m_sockets_by_id`), plus the
owned parent markers and group inputs. -/
structure InlinedNodeTree where
  node_by_id : List XNode
  sockets_by_id : List XSocket
  parent_nodes : List XParentNode
  group_inputs : List XGroupInput
deriving DecidableEq, Repr

def XSocket.node : XSocket → Nat
  | .input n _ _ _ _ => n
  | .output n _ _ _ => n

def XSocket.id : XSocket → Nat
  | .input _ i _ _ _ => i
  | .output _ i _ _ => i

def XSocket.vsocket : XSocket → VSocketRef
  | .input _ _ v _ _ => v
  | .output _ _ v _ => v

/-- The `linked_sockets()` accessor shared by `XInputSocket` (its linked
outputs) and `XOutputSocket` (its linked inputs). -/
def XSocket.linkedSockets : XSocket → List Nat
  | .input _ _ _ ls _ => ls
  | .output _ _ _ ls => ls

/-- The `linked_group_inputs()` accessor of `XInputSocket`. -/
def XSocket.linkedGroupInputs : XSocket → List Nat
  | .input _ _ _ _ lg => lg
  | .output _ _ _ _ => []

def XSocket.isInput : XSocket → Bool
  | .input _ _ _ _ _ => true
  | .output _ _ _ _ => false

def XSocket.isOutput : XSocket → Bool
  | .input _ _ _ _ _ => false
  | .output _ _ _ _ => true

/-- The indexed accessor `XNode::input(uint index)`: the source reads
`return *m_inputs[index];` with no bounds check; the `none` result models
the out-of-bounds branch that the C++ leaves undefined. -/
def XNode.input (n : XNode) (index : Nat) : Option Nat :=
  n.inputs[index]?

/-- The indexed accessor `XNode::output(uint index)`: the source reads
`return *m_outputs[index];` with no bounds check. -/
def XNode.output (n : XNode) (index : Nat) : Option Nat :=
  n.outputs[index]?

/-- The empty graph: initial construction state. -/
def initialGraph : InlinedNodeTree := ⟨[], [], [], []⟩

/-- In-place list update at an index (out of range: unchanged). -/
def updateAt : List α → Nat → (α → α) → List α
  | [], _, _ => []
  | a :: l, 0, f => f a :: l
  | a :: l, n + 1, f => a :: updateAt l n f

def InlinedNodeTree.socketAt? (t : InlinedNodeTree) (s : Nat) : Option XSocket :=
  t.sockets_by_id[s]?

def isInputAt (t : InlinedNodeTree) (s : Nat) : Bool :=
  match t.sockets_by_id[s]? with
  | some sk => sk.isInput
  | none => false

def isOutputAt (t : InlinedNodeTree) (s : Nat) : Bool :=
  match t.sockets_by_id[s]? with
  | some sk => sk.isOutput
  | none => false

def XSocket.withLinkedInput : XSocket → Nat → XSocket
  | .output n id v ls, i => .output n id v (ls ++ [i])
  | s, _ => s

def XSocket.withLinkedOutput : XSocket → Nat → XSocket
  | .input n id v ls lg, o => .input n id v (ls ++ [o]) lg
  | s, _ => s

def XSocket.withLinkedGroupInput : XSocket → Nat → XSocket
  | .input n id v ls lg, g => .input n id v ls (lg ++ [g])
  | s, _ => s

/-- Modelled from the spec: the symmetric connection step of
`InlinedNodeTree` link resolution (section 4.2 step 3, whose
implementation is not in the excerpt): append each endpoint to the other
endpoint's linked-socket list.  Only a valid output/input id pair is
connected. -/
def connect (t : InlinedNodeTree) (o i : Nat) : InlinedNodeTree :=
  if isOutputAt t o && isInputAt t i then
    let updated := updateAt (updateAt t.sockets_by_id o
      (fun s => s.withLinkedInput i)) i (fun s => s.withLinkedOutput o)
    { t with sockets_by_id := updated }
  else t

/-- Modelled from the spec: symmetric attachment of a group input to an
internal input socket it feeds (section 4.2 step 4). -/
def attachGroupInput (t : InlinedNodeTree) (g i : Nat) : InlinedNodeTree :=
  { t with
    sockets_by_id := updateAt t.sockets_by_id i (fun s => s.withLinkedGroupInput g),
    group_inputs := updateAt t.group_inputs g
      (fun gi => { gi with linkedSockets := gi.linkedSockets ++ [i] }) }

/-- Modelled from the spec: `InlinedNodeTree::create_node` (declared at
header line 126, body not in the excerpt): materialize one inlined node
with a fresh dense node id and fresh dense socket ids, inputs first, both
preserving source ordering (section 4.2 step 1). -/
def create_node (t : InlinedNodeTree) (vref : VNodeRef) (parent : Option Nat)
    (nIn nOut : Nat) : InlinedNodeTree × Nat :=
  let nid := t.node_by_id.length
  let base := t.sockets_by_id.length
  let inIds := (List.range nIn).map (fun k => base + k)
  let outIds := (List.range nOut).map (fun k => base + nIn + k)
  let inSocks := (List.range nIn).map
    (fun k => XSocket.input nid (base + k) ⟨vref.tree, vref.node, k⟩ [] [])
  let outSocks := (List.range nOut).map
    (fun k => XSocket.output nid (base + nIn + k) ⟨vref.tree, vref.node, k⟩ [])
  ({ t with
      node_by_id := t.node_by_id ++ [⟨vref, parent, nid, inIds, outIds⟩],
      sockets_by_id := t.sockets_by_id ++ (inSocks ++ outSocks) }, nid)

/-- Modelled from the spec: creation of one `XParentNode` boundary marker
for a group call site (section 4.2 step 1). -/
def create_parent_node (t : InlinedNodeTree) (vref : VNodeRef)
    (parent : Option Nat) : InlinedNodeTree × Nat :=
  ({ t with parent_nodes := t.parent_nodes ++ [⟨vref, parent⟩] },
    t.parent_nodes.length)

/-- Modelled from the spec: creation of one unresolved `XGroupInput`
boundary placeholder (section 4.2 step 4). -/
def create_group_input (t : InlinedNodeTree) (vref : VSocketRef)
    (parent : Option Nat) : InlinedNodeTree × Nat :=
  ({ t with group_inputs := t.group_inputs ++ [⟨vref, parent, []⟩] },
    t.group_inputs.length)

/-- Per-scope bookkeeping for one virtual node: a materialized plain node,
or an expanded group node with its parent marker and the boundary map of
its sub-tree (interface index paired with each inlined input socket id it
feeds). -/
inductive ScopeEntry where
  | plainNode (xnode : Nat)
  | groupNode (parentId : Nat) (boundary : List (Nat × Nat))
deriving DecidableEq, Repr

/-- Construction failures (section 7): a link endpoint not present in the
current scope's index, a group sub-tree that cannot be resolved, or
exhaustion of the recursion bound (cyclic group nesting is undefined
input). -/
inductive BuildError where
  | socketNotInIndex
  | groupTreeNotFound
  | outOfFuel
deriving DecidableEq, Repr

/-- Modelled from the spec: resolution of a link destination through the
current scope's index (section 4.2 steps 2 and 3).  A plain node input
resolves to its single inlined socket; a group node input resolves to the
set of internal inlined inputs its sub-tree boundary feeds. -/
def resolveInputSockets (tree : VirtualNodeTree) (entries : List ScopeEntry)
    (st : InlinedNodeTree) (n k : Nat) : Except BuildError (List Nat) :=
  match tree.nodes[n]?, entries[n]? with
  | some _, some (.plainNode nid) =>
      match st.node_by_id[nid]? with
      | some xn =>
          match xn.inputs[k]? with
          | some sid => .ok [sid]
          | none => .error .socketNotInIndex
      | none => .error .socketNotInIndex
  | some vn, some (.groupNode _ boundary) =>
      if k < vn.numInputs then
        .ok ((boundary.filter (fun e => e.1 = k)).map (fun e => e.2))
      else .error .socketNotInIndex
  | _, _ => .error .socketNotInIndex

/-- Modelled from the spec: resolution of a link source output socket
through the current scope's index (section 4.2 step 3).  Group node
outputs are not materialized in the index. -/
def resolveOutputSocket (entries : List ScopeEntry) (st : InlinedNodeTree)
    (a m : Nat) : Except BuildError Nat :=
  match entries[a]? with
  | some (.plainNode nid) =>
      match st.node_by_id[nid]? with
      | some xn =>
          match xn.outputs[m]? with
          | some sid => .ok sid
          | none => .error .socketNotInIndex
      | none => .error .socketNotInIndex
  | _ => .error .socketNotInIndex

/-- Modelled from the spec: section 4.2 step 3, the link walk of one
scope.  Each link is resolved through the scope index and connected
symmetrically; a link fed from the tree's own boundary input `j` is
deferred to the caller by recording boundary pairs. -/
def processLinks (tree : VirtualNodeTree) (entries : List ScopeEntry) :
    List VLink → InlinedNodeTree × List (Nat × Nat) →
    Except BuildError (InlinedNodeTree × List (Nat × Nat))
  | [], acc => .ok acc
  | l :: rest, (st, bnd) =>
      (resolveInputSockets tree entries st l.dstNode l.dstSocket).bind fun sids =>
      match l.src with
      | .nodeOutput a m =>
          (resolveOutputSocket entries st a m).bind fun o =>
          processLinks tree entries rest
            (sids.foldl (fun s i => connect s o i) st, bnd)
      | .boundaryInput j =>
          processLinks tree entries rest
            (st, bnd ++ sids.map (fun i => (j, i)))

/-- First-occurrence deduplication of boundary interface keys. -/
def dedupKeys : List Nat → List Nat → List Nat
  | [], _ => []
  | k :: rest, seen =>
      if k ∈ seen then dedupKeys rest seen else k :: dedupKeys rest (k :: seen)

/-- Whether the enclosing scope wires anything into external input `k` of
the group node at position `g`. -/
def boundaryFed (links : List VLink) (g k : Nat) : Bool :=
  links.any (fun l => l.dstNode = g && l.dstSocket = k)

/-- Modelled from the spec: section 4.2 step 4, the dangling case — the
caller supplied no link for external input `k` of the group node at
position `gIdx`, so one `XGroupInput` is created and attached to every
internal input socket the sub-tree boundary feeds from `k`. -/
def createGroupInputFor (tid gIdx pid : Nat) (boundary : List (Nat × Nat))
    (st : InlinedNodeTree) (k : Nat) : InlinedNodeTree :=
  let sids := (boundary.filter (fun e => e.1 = k)).map (fun e => e.2)
  let p := create_group_input st ⟨tid, gIdx, k⟩ (some pid)
  sids.foldl (fun s i => attachGroupInput s p.2 i) p.1

/-- Modelled from the spec: section 4.2 step 4 for one scope entry. -/
def reconcileEntry (tid : Nat) (links : List VLink) (gIdx : Nat)
    (e : ScopeEntry) (st : InlinedNodeTree) : InlinedNodeTree :=
  match e with
  | .plainNode _ => st
  | .groupNode pid boundary =>
      (dedupKeys (boundary.map (fun e => e.1)) []).foldl
        (fun s k =>
          if boundaryFed links gIdx k then s
          else createGroupInputFor tid gIdx pid boundary s k) st

/-- Modelled from the spec: section 4.2 step 4 over all scope entries. -/
def reconcileGroups (tid : Nat) (links : List VLink) :
    List ScopeEntry → Nat → InlinedNodeTree → InlinedNodeTree
  | [], _, st => st
  | e :: rest, gIdx, st =>
      reconcileGroups tid links rest (gIdx + 1) (reconcileEntry tid links gIdx e st)

/-- Modelled from the spec: section 4.2 step 1, the node walk of one
scope; `expandSub` performs the recursive expansion of a referenced
sub-tree (the body of `InlinedNodeTree::expand_group_node` is not in the
excerpt).  A plain node is materialized; a group node becomes a parent
marker plus its recursively expanded sub-tree. -/
def expandNodes
    (expandSub : Nat → VirtualNodeTree → Option Nat → InlinedNodeTree →
      Except BuildError (InlinedNodeTree × List (Nat × Nat)))
    (vtrees : BTreeVTreeMap) (tid : Nat) :
    List VNode → Nat → Option Nat → InlinedNodeTree →
    Except BuildError (InlinedNodeTree × List ScopeEntry)
  | [], _, _, st => .ok (st, [])
  | vn :: rest, idx, parent, st =>
      match vn.groupTree with
      | none =>
          let p := create_node st ⟨tid, idx⟩ parent vn.numInputs vn.numOutputs
          (expandNodes expandSub vtrees tid rest (idx + 1) parent p.1).map
            fun pr => (pr.1, .plainNode p.2 :: pr.2)
      | some subTid =>
          match vtrees subTid with
          | none => .error .groupTreeNotFound
          | some subTree =>
              let p := create_parent_node st ⟨tid, idx⟩ parent
              (expandSub subTid subTree (some p.2) p.1).bind fun pr =>
              (expandNodes expandSub vtrees tid rest (idx + 1) parent pr.1).map
                fun pr2 => (pr2.1, .groupNode p.2 pr.2 :: pr2.2)

/-- Modelled from the spec: the recursive expansion of one virtual tree in
one scope (section 4.2) — node walk, link walk, then group-input
reconciliation; the returned pair list is this scope's unresolved boundary
(interface index, fed inlined input socket id).  The fuel bound models the
finite acyclic nesting hypothesis (section 4.2 step 5). -/
def expandTree (vtrees : BTreeVTreeMap) :
    Nat → Nat → VirtualNodeTree → Option Nat → InlinedNodeTree →
    Except BuildError (InlinedNodeTree × List (Nat × Nat))
  | 0 => fun _ _ _ _ => .error .outOfFuel
  | fuel + 1 => fun tid tree parent st =>
      (expandNodes (expandTree vtrees fuel) vtrees tid tree.nodes 0 parent st).bind
        fun pr =>
      (processLinks tree pr.2 tree.links (pr.1, [])).map fun pr2 =>
        (reconcileGroups tid tree.links pr.2 0 pr2.1, pr2.2)

/-- Modelled from the spec: the public contract
`build(root_tree) -> InlinedGraph` (section 4.2), i.e. the constructor
`InlinedNodeTree::InlinedNodeTree(bNodeTree *, BTreeVTreeMap &)` whose
body is not in the excerpt.  All-or-nothing: the result is either a
complete graph or an error, never a partial graph. -/
def build (vtrees : BTreeVTreeMap) (rootId fuel : Nat) :
    Except BuildError InlinedNodeTree :=
  match vtrees rootId with
  | none => .error .groupTreeNotFound
  | some tree =>
      (expandTree vtrees fuel rootId tree none initialGraph).map fun pr => pr.1

/-- The ancestor parent-marker chain of an optional parent reference,
bounded by fuel (marker ids strictly decrease in construction order, so
any fuel at least the marker count is enough). -/
def ancestorChain (t : InlinedNodeTree) : Nat → Option Nat → List Nat
  | 0, _ => []
  | _, none => []
  | fuel + 1, some p =>
      match t.parent_nodes[p]? with
      | none => [p]
      | some pn => p :: ancestorChain t fuel pn.parent

/-! ## Concrete scenarios from the specification's testable properties -/

/-- Section 8 concrete scenario: root tree 0 holds `A` (no inputs, one
output) and `Group1` (one external input, referencing tree 1) with the
link `A.out -> Group1.in`; tree 1 holds `B` (one input) fed from the
group's boundary input. -/
def c1Cache : BTreeVTreeMap := fun tid =>
  match tid with
  | 0 => some ⟨[⟨none, 0, 1⟩, ⟨some 1, 1, 0⟩], [⟨.nodeOutput 0 0, 1, 0⟩]⟩
  | 1 => some ⟨[⟨none, 1, 0⟩], [⟨.boundaryInput 0, 0, 0⟩]⟩
  | _ => none

/-- The graph built from the section 8 scenario. -/
def c1Graph : InlinedNodeTree :=
  match build c1Cache 0 10 with
  | .ok g => g
  | .error _ => initialGraph

/-- Two-level nesting scenario: root tree 0 holds `A` and `G1`
(referencing tree 1); tree 1 holds only `G2` (referencing tree 2) fed from
tree 1's boundary; tree 2 holds `B` fed from tree 2's boundary.  The whole
chain is wired end-to-end from `A.out`. -/
def c5Cache : BTreeVTreeMap := fun tid =>
  match tid with
  | 0 => some ⟨[⟨none, 0, 1⟩, ⟨some 1, 1, 0⟩], [⟨.nodeOutput 0 0, 1, 0⟩]⟩
  | 1 => some ⟨[⟨some 2, 1, 0⟩], [⟨.boundaryInput 0, 0, 0⟩]⟩
  | 2 => some ⟨[⟨none, 1, 0⟩], [⟨.boundaryInput 0, 0, 0⟩]⟩
  | _ => none

/-- The graph built from the nested-group scenario. -/
def c5Graph : InlinedNodeTree :=
  match build c5Cache 0 10 with
  | .ok g => g
  | .error _ => initialGraph

/-- Dangling boundary scenario: root tree 0 holds one group node
(referencing tree 1) whose single external input is left unconnected;
tree 1 holds `B` fed from the group's boundary input. -/
def c6Cache : BTreeVTreeMap := fun tid =>
  match tid with
  | 0 => some ⟨[⟨some 1, 1, 0⟩], []⟩
  | 1 => some ⟨[⟨none, 1, 0⟩], [⟨.boundaryInput 0, 0, 0⟩]⟩
  | _ => none

/-- The graph built from the dangling-boundary scenario. -/
def c6Graph : InlinedNodeTree :=
  match build c6Cache 0 10 with
  | .ok g => g
  | .error _ => initialGraph

/-- C1: building the inlined graph from the source tree
`A(out) -> Group1(in)` where Group1 internally contains `in -> B(in)`
produces exactly 2 inlined nodes — one originating from `A` (root tree
node 0) and one from `B` (sub-tree node 0), while `Group1` (root tree
node 1) appears only as the single `XParentNode` — exactly one symmetric
link from `A`'s output socket (id 0) to `B`'s input socket (id 1), and
zero `XGroupInput` instances. -/
theorem C1_concrete_group_expansion :
    build c1Cache 0 10 = Except.ok c1Graph ∧
    c1Graph.node_by_id.length = 2 ∧
    c1Graph.node_by_id.map XNode.vnode = [⟨0, 0⟩, ⟨1, 0⟩] ∧
    c1Graph.parent_nodes = [⟨⟨0, 1⟩, none⟩] ∧
    c1Graph.sockets_by_id.map XSocket.linkedSockets = [[1], [0]] ∧
    c1Graph.sockets_by_id.map XSocket.isOutput = [true, false] ∧
    c1Graph.sockets_by_id.map XSocket.linkedGroupInputs = [[], []] ∧
    c1Graph.group_inputs = [] :=
  ⟨rfl, rfl, rfl, rfl, rfl, rfl, rfl, rfl⟩

/-- C5: in the two-level nesting scenario the innermost inlined node `B`
has an ancestor parent-marker chain of exactly 2 elements (`G2`'s marker,
whose parent is `G1`'s marker, whose parent is null), and link resolution
connects the outer caller's output socket (id 0, on `A`) symmetrically to
the innermost input socket (id 1, on `B`) across both group boundaries. -/
theorem C5_nested_groups :
    build c5Cache 0 10 = Except.ok c5Graph ∧
    c5Graph.node_by_id.map XNode.vnode = [⟨0, 0⟩, ⟨2, 0⟩] ∧
    c5Graph.node_by_id.map XNode.parent = [none, some 1] ∧
    ancestorChain c5Graph 10 (some 1) = [1, 0] ∧
    (ancestorChain c5Graph 10 (some 1)).length = 2 ∧
    c5Graph.parent_nodes.map XParentNode.parent = [none, some 0] ∧
    c5Graph.sockets_by_id.map XSocket.linkedSockets = [[1], [0]] ∧
    c5Graph.sockets_by_id.map XSocket.isOutput = [true, false] ∧
    c5Graph.group_inputs = [] :=
  ⟨rfl, rfl, rfl, rfl, rfl, rfl, rfl, rfl, rfl⟩

/-- C6: in the dangling-boundary scenario — the group node's single
external input left unconnected by the caller — `build` succeeds (no
abort), the result contains exactly one `XGroupInput` for that input
(originating virtual socket: the group node's external input, parent: the
group's marker), the fed internal input socket has an empty
linked-output-socket set, and the group input and the internal input
reference each other. -/
theorem C6_dangling_boundary_input :
    build c6Cache 0 10 = Except.ok c6Graph ∧
    c6Graph.group_inputs.length = 1 ∧
    c6Graph.group_inputs = [⟨⟨0, 0, 0⟩, some 0, [0]⟩] ∧
    c6Graph.sockets_by_id.map XSocket.isInput = [true] ∧
    c6Graph.sockets_by_id.map XSocket.linkedSockets = [[]] ∧
    c6Graph.sockets_by_id.map XSocket.linkedGroupInputs = [[0]] :=
  ⟨rfl, rfl, rfl, rfl, rfl, rfl⟩

/-- C8: construction is deterministic — building twice from identical
source-tree content (extensionally equal tree caches, equal root tree and
recursion bound) yields graphs with identical node-id and socket-id
assignments and identical link topology, since `build` is a pure function
of its input. -/
theorem C8_determinism (vt1 vt2 : BTreeVTreeMap) (r1 r2 fuel1 fuel2 : Nat)
    (hc : ∀ k, vt1 k = vt2 k) (hr : r1 = r2) (hf : fuel1 = fuel2) :
    build vt1 r1 fuel1 = build vt2 r2 fuel2 := by
  have hv : vt1 = vt2 := funext hc
  rw [hv, hr, hf]

/-- Witness for C8 at the section 8 scenario. -/
theorem C8_determinism_witness : build c1Cache 0 10 = build c1Cache 0 10 :=
  C8_determinism c1Cache c1Cache 0 0 10 10 (fun _ => rfl) rfl rfl

/-- C10: the indexed accessors `XNode::input(index)` and
`XNode::output(index)` dereference the stored list at the given index with
no bounds check; for every index strictly below the node's input
(respectively output) count the accessor returns the socket at that
ordered position, so under that precondition the out-of-bounds (`none`)
branch of the embedding is unreachable. -/
theorem C10_indexed_accessors (n : XNode) (i j : Nat)
    (hi : i < n.inputs.length) (hj : j < n.outputs.length) :
    n.input i = some (n.inputs.get ⟨i, hi⟩) ∧
    n.output j = some (n.outputs.get ⟨j, hj⟩) := by
  refine ⟨?_, ?_⟩ <;>
    simp [XNode.input, XNode.output, List.getElem?_eq_getElem, hi, hj,
      List.get_eq_getElem]

/-- Witness for C10 at a concrete node with two inputs and one output. -/
theorem C10_indexed_accessors_witness :
    (XNode.mk ⟨0, 0⟩ none 0 [5, 7] [9]).input 1 =
      some ((XNode.mk ⟨0, 0⟩ none 0 [5, 7] [9]).inputs.get ⟨1, by decide⟩) ∧
    (XNode.mk ⟨0, 0⟩ none 0 [5, 7] [9]).output 0 =
      some ((XNode.mk ⟨0, 0⟩ none 0 [5, 7] [9]).outputs.get ⟨0, by decide⟩) :=
  C10_indexed_accessors (XNode.mk ⟨0, 0⟩ none 0 [5, 7] [9]) 1 0
    (by decide) (by decide)

/-! ## Lemmas about the update primitives -/

theorem updateAt_length (l : List α) (n : Nat) (f : α → α) :
    (updateAt l n f).length = l.length := by
  induction l generalizing n with
  | nil => rfl
  | cons a t ih =>
      cases n with
      | zero => rfl
      | succ m => simp [updateAt, ih]

theorem getElem?_updateAt_self (l : List α) (n : Nat) (f : α → α) :
    (updateAt l n f)[n]? = (l[n]?).map f := by
  induction l generalizing n with
  | nil => simp [updateAt]
  | cons a t ih =>
      cases n with
      | zero => simp [updateAt]
      | succ m => simpa [updateAt] using ih m

theorem getElem?_updateAt_ne (l : List α) (n m : Nat) (f : α → α)
    (h : m ≠ n) : (updateAt l n f)[m]? = l[m]? := by
  induction l generalizing n m with
  | nil => rfl
  | cons a t ih =>
      cases n with
      | zero =>
          cases m with
          | zero => exact absurd rfl h
          | succ k => simp [updateAt]
      | succ n' =>
          cases m with
          | zero => simp [updateAt]
          | succ k => simpa [updateAt] using ih n' k (fun hh => h (by rw [hh]))

theorem map_updateAt_eq (l : List α) (n : Nat) (f : α → α) (g : α → β)
    (h : ∀ a, g (f a) = g a) : (updateAt l n f).map g = l.map g := by
  induction l generalizing n with
  | nil => rfl
  | cons a t ih =>
      cases n with
      | zero => simp [updateAt, h]
      | succ m => simp [updateAt, ih]

theorem getElem?_map_updateAt (l : List α) (n j : Nat) (f : α → α)
    (g : α → β) (h : ∀ a, g (f a) = g a) :
    ((updateAt l n f)[j]?).map g = (l[j]?).map g := by
  by_cases hj : j = n
  · subst hj
    rw [getElem?_updateAt_self]
    cases l[j]? <;> simp [h]
  · rw [getElem?_updateAt_ne _ _ _ _ hj]

@[simp] theorem node_withLinkedInput (s : XSocket) (i : Nat) :
    (s.withLinkedInput i).node = s.node := by
  cases s <;> rfl

@[simp] theorem node_withLinkedOutput (s : XSocket) (o : Nat) :
    (s.withLinkedOutput o).node = s.node := by
  cases s <;> rfl

@[simp] theorem node_withLinkedGroupInput (s : XSocket) (g : Nat) :
    (s.withLinkedGroupInput g).node = s.node := by
  cases s <;> rfl

@[simp] theorem id_withLinkedInput (s : XSocket) (i : Nat) :
    (s.withLinkedInput i).id = s.id := by
  cases s <;> rfl

@[simp] theorem id_withLinkedOutput (s : XSocket) (o : Nat) :
    (s.withLinkedOutput o).id = s.id := by
  cases s <;> rfl

@[simp] theorem id_withLinkedGroupInput (s : XSocket) (g : Nat) :
    (s.withLinkedGroupInput g).id = s.id := by
  cases s <;> rfl

@[simp] theorem vsocket_withLinkedInput (s : XSocket) (i : Nat) :
    (s.withLinkedInput i).vsocket = s.vsocket := by
  cases s <;> rfl

@[simp] theorem vsocket_withLinkedOutput (s : XSocket) (o : Nat) :
    (s.withLinkedOutput o).vsocket = s.vsocket := by
  cases s <;> rfl

@[simp] theorem vsocket_withLinkedGroupInput (s : XSocket) (g : Nat) :
    (s.withLinkedGroupInput g).vsocket = s.vsocket := by
  cases s <;> rfl

@[simp] theorem isInput_withLinkedInput (s : XSocket) (i : Nat) :
    (s.withLinkedInput i).isInput = s.isInput := by
  cases s <;> rfl

@[simp] theorem isInput_withLinkedOutput (s : XSocket) (o : Nat) :
    (s.withLinkedOutput o).isInput = s.isInput := by
  cases s <;> rfl

@[simp] theorem isInput_withLinkedGroupInput (s : XSocket) (g : Nat) :
    (s.withLinkedGroupInput g).isInput = s.isInput := by
  cases s <;> rfl

@[simp] theorem isOutput_withLinkedInput (s : XSocket) (i : Nat) :
    (s.withLinkedInput i).isOutput = s.isOutput := by
  cases s <;> rfl

@[simp] theorem isOutput_withLinkedOutput (s : XSocket) (o : Nat) :
    (s.withLinkedOutput o).isOutput = s.isOutput := by
  cases s <;> rfl

@[simp] theorem isOutput_withLinkedGroupInput (s : XSocket) (g : Nat) :
    (s.withLinkedGroupInput g).isOutput = s.isOutput := by
  cases s <;> rfl

@[simp] theorem linkedSockets_withLinkedGroupInput (s : XSocket) (g : Nat) :
    (s.withLinkedGroupInput g).linkedSockets = s.linkedSockets := by
  cases s <;> rfl

/-! ## Link views and the construction invariant -/

/-- The linked input ids of the output socket with id `o` (empty when `o`
is not an output socket of the graph): the view behind
`XOutputSocket::linked_sockets`. -/
def outLinks (t : InlinedNodeTree) (o : Nat) : List Nat :=
  match t.sockets_by_id[o]? with
  | some (.output _ _ _ ls) => ls
  | _ => []

/-- The linked output ids of the input socket with id `i` (empty when `i`
is not an input socket of the graph): the view behind
`XInputSocket::linked_sockets`. -/
def inLinks (t : InlinedNodeTree) (i : Nat) : List Nat :=
  match t.sockets_by_id[i]? with
  | some (.input _ _ _ ls _) => ls
  | _ => []

/-- Link symmetry: output `o` lists input `i` iff input `i` lists
output `o`. -/
def LinkSym (t : InlinedNodeTree) : Prop :=
  ∀ o i : Nat, i ∈ outLinks t o ↔ o ∈ inLinks t i

/-- Every id stored in a linked-socket list is a valid socket id. -/
def LinkBounds (t : InlinedNodeTree) : Prop :=
  (∀ o i : Nat, i ∈ outLinks t o → i < t.sockets_by_id.length) ∧
  (∀ i o : Nat, o ∈ inLinks t i → o < t.sockets_by_id.length)

/-- Dense id assignment: the id stored in every node and every socket is
its position in the id-indexed store. -/
def IdsDense (t : InlinedNodeTree) : Prop :=
  t.node_by_id.map XNode.id = List.range t.node_by_id.length ∧
  t.sockets_by_id.map XSocket.id = List.range t.sockets_by_id.length

def socketNode? (t : InlinedNodeTree) (j : Nat) : Option Nat :=
  (t.sockets_by_id[j]?).map XSocket.node

def socketVRef? (t : InlinedNodeTree) (j : Nat) : Option VSocketRef :=
  (t.sockets_by_id[j]?).map XSocket.vsocket

def socketIsInput? (t : InlinedNodeTree) (j : Nat) : Option Bool :=
  (t.sockets_by_id[j]?).map XSocket.isInput

def socketIsOutput? (t : InlinedNodeTree) (j : Nat) : Option Bool :=
  (t.sockets_by_id[j]?).map XSocket.isOutput

/-- Socket/node coherence: every socket listed by a node points back at
that node with its list position equal to the originating virtual socket
position, and every socket is listed by its owning node at exactly that
position. -/
def Coherent (t : InlinedNodeTree) : Prop :=
  (∀ nid xn, t.node_by_id[nid]? = some xn →
    (∀ k sid, xn.inputs[k]? = some sid →
      socketNode? t sid = some nid ∧ socketIsInput? t sid = some true ∧
      socketVRef? t sid = some ⟨xn.vnode.tree, xn.vnode.node, k⟩) ∧
    (∀ k sid, xn.outputs[k]? = some sid →
      socketNode? t sid = some nid ∧ socketIsOutput? t sid = some true ∧
      socketVRef? t sid = some ⟨xn.vnode.tree, xn.vnode.node, k⟩)) ∧
  (∀ sid : Nat, sid < t.sockets_by_id.length →
    ∃ nid xn vr, socketNode? t sid = some nid ∧
      t.node_by_id[nid]? = some xn ∧
      socketVRef? t sid = some vr ∧
      xn.vnode.tree = vr.tree ∧ xn.vnode.node = vr.node ∧
      (socketIsInput? t sid = some true → xn.inputs[vr.socket]? = some sid) ∧
      (socketIsOutput? t sid = some true → xn.outputs[vr.socket]? = some sid))

/-- The construction invariant maintained by every step of the modelled
algorithm. -/
def ConsInv (t : InlinedNodeTree) : Prop :=
  LinkSym t ∧ LinkBounds t ∧ IdsDense t ∧ Coherent t

theorem coherent_of_obs_eq (t t' : InlinedNodeTree)
    (hn : t'.node_by_id = t.node_by_id)
    (hl : t'.sockets_by_id.length = t.sockets_by_id.length)
    (h1 : ∀ j, socketNode? t' j = socketNode? t j)
    (h2 : ∀ j, socketVRef? t' j = socketVRef? t j)
    (h3 : ∀ j, socketIsInput? t' j = socketIsInput? t j)
    (h4 : ∀ j, socketIsOutput? t' j = socketIsOutput? t j)
    (hc : Coherent t) : Coherent t' := by
  obtain ⟨hf, hb⟩ := hc
  constructor
  · intro nid xn hxn
    rw [hn] at hxn
    obtain ⟨hfi, hfo⟩ := hf nid xn hxn
    constructor
    · intro k sid hsid
      rw [h1, h3, h2]
      exact hfi k sid hsid
    · intro k sid hsid
      rw [h1, h4, h2]
      exact hfo k sid hsid
  · intro sid hsid
    rw [hl] at hsid
    obtain ⟨nid, xn, vr, e1, e2, e3, e4, e5, e6, e7⟩ := hb sid hsid
    refine ⟨nid, xn, vr, ?_, ?_, ?_, e4, e5, ?_, ?_⟩
    · rw [h1]; exact e1
    · rw [hn]; exact e2
    · rw [h2]; exact e3
    · rw [h3]; exact fun h => e6 h
    · rw [h4]; exact fun h => e7 h

theorem isOutputAt_iff (t : InlinedNodeTree) (o : Nat) :
    isOutputAt t o = true ↔
      ∃ s, t.sockets_by_id[o]? = some s ∧ s.isOutput = true := by
  unfold isOutputAt
  cases h : t.sockets_by_id[o]? <;> simp

theorem isInputAt_iff (t : InlinedNodeTree) (i : Nat) :
    isInputAt t i = true ↔
      ∃ s, t.sockets_by_id[i]? = some s ∧ s.isInput = true := by
  unfold isInputAt
  cases h : t.sockets_by_id[i]? <;> simp

theorem not_isInput_of_isOutput (s : XSocket) (h : s.isOutput = true) :
    s.isInput = false := by
  cases s
  · simp [XSocket.isOutput] at h
  · rfl

/-! ## Preservation of the invariant by `connect` -/

theorem connect_guard_false (t : InlinedNodeTree) (o i : Nat)
    (h : (isOutputAt t o && isInputAt t i) = false) : connect t o i = t := by
  simp [connect, h]

theorem connect_sockets_of_guard (t : InlinedNodeTree) (o i : Nat)
    (h : (isOutputAt t o && isInputAt t i) = true) :
    (connect t o i).sockets_by_id =
      updateAt (updateAt t.sockets_by_id o (fun s => s.withLinkedInput i)) i
        (fun s => s.withLinkedOutput o) := by
  simp [connect, h]

theorem connect_node_by_id (t : InlinedNodeTree) (o i : Nat) :
    (connect t o i).node_by_id = t.node_by_id := by
  unfold connect
  split <;> rfl

theorem connect_parent_nodes (t : InlinedNodeTree) (o i : Nat) :
    (connect t o i).parent_nodes = t.parent_nodes := by
  unfold connect
  split <;> rfl

theorem connect_group_inputs (t : InlinedNodeTree) (o i : Nat) :
    (connect t o i).group_inputs = t.group_inputs := by
  unfold connect
  split <;> rfl

theorem connect_sockets_length (t : InlinedNodeTree) (o i : Nat) :
    (connect t o i).sockets_by_id.length = t.sockets_by_id.length := by
  by_cases h : (isOutputAt t o && isInputAt t i) = true
  · rw [connect_sockets_of_guard t o i h, updateAt_length, updateAt_length]
  · rw [connect_guard_false t o i (by simpa using h)]

theorem connect_guard_ne (t : InlinedNodeTree) (o i : Nat)
    (h : (isOutputAt t o && isInputAt t i) = true) : o ≠ i := by
  rw [Bool.and_eq_true] at h
  obtain ⟨so, hso, hso2⟩ := (isOutputAt_iff t o).mp h.1
  obtain ⟨si, hsi, hsi2⟩ := (isInputAt_iff t i).mp h.2
  intro he
  subst he
  rw [hso] at hsi
  cases hsi
  rw [not_isInput_of_isOutput so hso2] at hsi2
  exact Bool.false_ne_true hsi2

theorem outLinks_connect_self (t : InlinedNodeTree) (o i : Nat)
    (h : (isOutputAt t o && isInputAt t i) = true) :
    outLinks (connect t o i) o = outLinks t o ++ [i] := by
  have hne := connect_guard_ne t o i h
  rw [Bool.and_eq_true] at h
  obtain ⟨so, hso, hso2⟩ := (isOutputAt_iff t o).mp h.1
  have hs := connect_sockets_of_guard t o i (by rw [Bool.and_eq_true]; exact h)
  unfold outLinks
  rw [hs, getElem?_updateAt_ne _ _ _ _ hne, getElem?_updateAt_self, hso]
  cases so with
  | input _ _ _ _ _ => simp [XSocket.isOutput] at hso2
  | output n id v ls => simp [XSocket.withLinkedInput]

theorem outLinks_connect_other (t : InlinedNodeTree) (o i x : Nat)
    (hx : x ≠ o) : outLinks (connect t o i) x = outLinks t x := by
  by_cases h : (isOutputAt t o && isInputAt t i) = true
  · have hs := connect_sockets_of_guard t o i h
    unfold outLinks
    rw [hs]
    by_cases hxi : x = i
    · subst hxi
      rw [Bool.and_eq_true] at h
      obtain ⟨si, hsi, hsi2⟩ := (isInputAt_iff t x).mp h.2
      rw [getElem?_updateAt_self, getElem?_updateAt_ne _ _ _ _ hx, hsi]
      cases si with
      | input n id v ls lg => simp [XSocket.withLinkedOutput]
      | output _ _ _ _ => simp [XSocket.isInput] at hsi2
    · rw [getElem?_updateAt_ne _ _ _ _ hxi, getElem?_updateAt_ne _ _ _ _ hx]
  · rw [connect_guard_false t o i (by simpa using h)]

theorem inLinks_connect_self (t : InlinedNodeTree) (o i : Nat)
    (h : (isOutputAt t o && isInputAt t i) = true) :
    inLinks (connect t o i) i = inLinks t i ++ [o] := by
  have hne := connect_guard_ne t o i h
  rw [Bool.and_eq_true] at h
  obtain ⟨si, hsi, hsi2⟩ := (isInputAt_iff t i).mp h.2
  have hs := connect_sockets_of_guard t o i (by rw [Bool.and_eq_true]; exact h)
  unfold inLinks
  rw [hs, getElem?_updateAt_self, getElem?_updateAt_ne _ _ _ _ (Ne.symm hne), hsi]
  cases si with
  | input n id v ls lg => simp [XSocket.withLinkedOutput]
  | output _ _ _ _ => simp [XSocket.isInput] at hsi2

theorem inLinks_connect_other (t : InlinedNodeTree) (o i x : Nat)
    (hx : x ≠ i) : inLinks (connect t o i) x = inLinks t x := by
  by_cases h : (isOutputAt t o && isInputAt t i) = true
  · have hs := connect_sockets_of_guard t o i h
    unfold inLinks
    rw [hs]
    by_cases hxo : x = o
    · subst hxo
      rw [Bool.and_eq_true] at h
      obtain ⟨so, hso, hso2⟩ := (isOutputAt_iff t x).mp h.1
      rw [getElem?_updateAt_ne _ _ _ _ hx, getElem?_updateAt_self, hso]
      cases so with
      | input _ _ _ _ _ => simp [XSocket.isOutput] at hso2
      | output n id v ls => simp [XSocket.withLinkedInput]
    · rw [getElem?_updateAt_ne _ _ _ _ hx, getElem?_updateAt_ne _ _ _ _ hxo]
  · rw [connect_guard_false t o i (by simpa using h)]

theorem linkSym_connect (t : InlinedNodeTree) (o i : Nat)
    (hs : LinkSym t) : LinkSym (connect t o i) := by
  by_cases h : (isOutputAt t o && isInputAt t i) = true
  · intro x y
    by_cases hxo : x = o
    · subst hxo
      rw [outLinks_connect_self t x i h]
      by_cases hyi : y = i
      · subst hyi
        rw [inLinks_connect_self t x y h]
        simp
      · rw [inLinks_connect_other t x i y hyi]
        simp only [List.mem_append, List.mem_singleton]
        constructor
        · intro hc
          rcases hc with hc | hc
          · exact (hs x y).mp hc
          · exact absurd hc hyi
        · intro hc
          exact Or.inl ((hs x y).mpr hc)
    · rw [outLinks_connect_other t o i x hxo]
      by_cases hyi : y = i
      · subst hyi
        rw [inLinks_connect_self t o y h]
        simp only [List.mem_append, List.mem_singleton]
        constructor
        · intro hc
          exact Or.inl ((hs x y).mp hc)
        · intro hc
          rcases hc with hc | hc
          · exact (hs x y).mpr hc
          · exact absurd hc hxo
      · rw [inLinks_connect_other t o i y hyi]
        exact hs x y
  · rw [connect_guard_false t o i (by simpa using h)]
    exact hs

theorem linkBounds_connect (t : InlinedNodeTree) (o i : Nat)
    (hb : LinkBounds t) : LinkBounds (connect t o i) := by
  by_cases h : (isOutputAt t o && isInputAt t i) = true
  · have hlen := connect_sockets_length t o i
    have hio : i < t.sockets_by_id.length := by
      rw [Bool.and_eq_true] at h
      obtain ⟨si, hsi, _⟩ := (isInputAt_iff t i).mp h.2
      exact (List.getElem?_eq_some.mp hsi).1
    have hoo : o < t.sockets_by_id.length := by
      rw [Bool.and_eq_true] at h
      obtain ⟨so, hso, _⟩ := (isOutputAt_iff t o).mp h.1
      exact (List.getElem?_eq_some.mp hso).1
    constructor
    · intro x y hy
      rw [hlen]
      by_cases hxo : x = o
      · subst hxo
        rw [outLinks_connect_self t x i h] at hy
        rcases List.mem_append.mp hy with hy | hy
        · exact hb.1 x y hy
        · rw [List.mem_singleton.mp hy]; exact hio
      · rw [outLinks_connect_other t o i x hxo] at hy
        exact hb.1 x y hy
    · intro x y hy
      rw [hlen]
      by_cases hxi : x = i
      · subst hxi
        rw [inLinks_connect_self t o x h] at hy
        rcases List.mem_append.mp hy with hy | hy
        · exact hb.2 x y hy
        · rw [List.mem_singleton.mp hy]; exact hoo
      · rw [inLinks_connect_other t o i x hxi] at hy
        exact hb.2 x y hy
  · rw [connect_guard_false t o i (by simpa using h)]
    exact hb

/-! ## Generic index helpers -/

theorem getElem?_map_range (f : Nat → α) (n k : Nat) :
    ((List.range n).map f)[k]? = if k < n then some (f k) else none := by
  rw [List.getElem?_map]
  by_cases h : k < n
  · rw [List.getElem?_range h]
    simp [h]
  · rw [List.getElem?_eq_none (by simpa [List.length_range] using Nat.le_of_not_lt h)]
    simp [h]

theorem getElem?_append_lt (l1 l2 : List α) (i : Nat) (h : i < l1.length) :
    (l1 ++ l2)[i]? = l1[i]? := by
  rw [List.getElem?_append]
  simp [h]

theorem getElem?_append_ge (l1 l2 : List α) (i : Nat) (h : l1.length ≤ i) :
    (l1 ++ l2)[i]? = l2[i - l1.length]? := by
  rw [List.getElem?_append]
  simp [Nat.not_lt.mpr h]

/-! ## Preservation of the invariant by `attachGroupInput` -/

theorem attach_node_by_id (t : InlinedNodeTree) (g i : Nat) :
    (attachGroupInput t g i).node_by_id = t.node_by_id := rfl

theorem attach_sockets (t : InlinedNodeTree) (g i : Nat) :
    (attachGroupInput t g i).sockets_by_id =
      updateAt t.sockets_by_id i (fun s => s.withLinkedGroupInput g) := rfl

theorem attach_sockets_length (t : InlinedNodeTree) (g i : Nat) :
    (attachGroupInput t g i).sockets_by_id.length = t.sockets_by_id.length := by
  rw [attach_sockets, updateAt_length]

theorem outLinks_attach (t : InlinedNodeTree) (g i x : Nat) :
    outLinks (attachGroupInput t g i) x = outLinks t x := by
  unfold outLinks
  rw [attach_sockets]
  by_cases hx : x = i
  · subst hx
    rw [getElem?_updateAt_self]
    cases h : t.sockets_by_id[x]? with
    | none => rfl
    | some s => cases s <;> simp [XSocket.withLinkedGroupInput]
  · rw [getElem?_updateAt_ne _ _ _ _ hx]

theorem inLinks_attach (t : InlinedNodeTree) (g i x : Nat) :
    inLinks (attachGroupInput t g i) x = inLinks t x := by
  unfold inLinks
  rw [attach_sockets]
  by_cases hx : x = i
  · subst hx
    rw [getElem?_updateAt_self]
    cases h : t.sockets_by_id[x]? with
    | none => rfl
    | some s => cases s <;> simp [XSocket.withLinkedGroupInput]
  · rw [getElem?_updateAt_ne _ _ _ _ hx]

theorem consInv_attach (t : InlinedNodeTree) (g i : Nat)
    (h : ConsInv t) : ConsInv (attachGroupInput t g i) := by
  obtain ⟨hsym, hbnd, hids, hcoh⟩ := h
  refine ⟨?_, ⟨?_, ?_⟩, ⟨?_, ?_⟩, ?_⟩
  · intro o i'
    rw [outLinks_attach, inLinks_attach]
    exact hsym o i'
  · intro o i' hi
    rw [outLinks_attach] at hi
    rw [attach_sockets_length]
    exact hbnd.1 o i' hi
  · intro i' o ho
    rw [inLinks_attach] at ho
    rw [attach_sockets_length]
    exact hbnd.2 i' o ho
  · rw [attach_node_by_id]
    exact hids.1
  · rw [attach_sockets, updateAt_length,
      map_updateAt_eq _ _ _ _ (fun a => id_withLinkedGroupInput a g)]
    exact hids.2
  · refine coherent_of_obs_eq t (attachGroupInput t g i) rfl
      (attach_sockets_length t g i) ?_ ?_ ?_ ?_ hcoh
    · intro j
      unfold socketNode?
      rw [attach_sockets]
      exact getElem?_map_updateAt _ _ _ _ _ (fun a => node_withLinkedGroupInput a g)
    · intro j
      unfold socketVRef?
      rw [attach_sockets]
      exact getElem?_map_updateAt _ _ _ _ _ (fun a => vsocket_withLinkedGroupInput a g)
    · intro j
      unfold socketIsInput?
      rw [attach_sockets]
      exact getElem?_map_updateAt _ _ _ _ _ (fun a => isInput_withLinkedGroupInput a g)
    · intro j
      unfold socketIsOutput?
      rw [attach_sockets]
      exact getElem?_map_updateAt _ _ _ _ _ (fun a => isOutput_withLinkedGroupInput a g)

/-! ## Invariance under operations that touch neither store -/

theorem consInv_congr (t t' : InlinedNodeTree)
    (hn : t'.node_by_id = t.node_by_id)
    (hs : t'.sockets_by_id = t.sockets_by_id) (h : ConsInv t) : ConsInv t' := by
  cases t with
  | mk n s p g =>
      cases t' with
      | mk n' s' p' g' =>
          simp only at hn hs
          subst hn hs
          exact h

theorem consInv_create_parent_node (t : InlinedNodeTree) (v : VNodeRef)
    (p : Option Nat) (h : ConsInv t) :
    ConsInv (create_parent_node t v p).1 :=
  consInv_congr t _ rfl rfl h

theorem consInv_create_group_input (t : InlinedNodeTree) (v : VSocketRef)
    (p : Option Nat) (h : ConsInv t) :
    ConsInv (create_group_input t v p).1 :=
  consInv_congr t _ rfl rfl h

/-! ## Characterization of `create_node` -/

theorem lt_of_getElem?_map_some {l : List α} {f : α → β} {j : Nat} {x : β}
    (h : (l[j]?).map f = some x) : j < l.length := by
  cases hl : l[j]? with
  | none => rw [hl] at h; simp at h
  | some a => exact (List.getElem?_eq_some.mp hl).1

theorem create_node_nodes (t : InlinedNodeTree) (vref : VNodeRef)
    (parent : Option Nat) (nIn nOut : Nat) :
    (create_node t vref parent nIn nOut).1.node_by_id =
      t.node_by_id ++ [⟨vref, parent, t.node_by_id.length,
        (List.range nIn).map (fun k => t.sockets_by_id.length + k),
        (List.range nOut).map (fun k => t.sockets_by_id.length + nIn + k)⟩] := rfl

theorem create_node_sockets (t : InlinedNodeTree) (vref : VNodeRef)
    (parent : Option Nat) (nIn nOut : Nat) :
    (create_node t vref parent nIn nOut).1.sockets_by_id =
      t.sockets_by_id ++
        ((List.range nIn).map (fun k => XSocket.input t.node_by_id.length
            (t.sockets_by_id.length + k) ⟨vref.tree, vref.node, k⟩ [] []) ++
         (List.range nOut).map (fun k => XSocket.output t.node_by_id.length
            (t.sockets_by_id.length + nIn + k) ⟨vref.tree, vref.node, k⟩ [])) := rfl

theorem create_node_snd (t : InlinedNodeTree) (vref : VNodeRef)
    (parent : Option Nat) (nIn nOut : Nat) :
    (create_node t vref parent nIn nOut).2 = t.node_by_id.length := rfl

theorem create_node_parent_nodes (t : InlinedNodeTree) (vref : VNodeRef)
    (parent : Option Nat) (nIn nOut : Nat) :
    (create_node t vref parent nIn nOut).1.parent_nodes = t.parent_nodes := rfl

theorem create_node_group_inputs (t : InlinedNodeTree) (vref : VNodeRef)
    (parent : Option Nat) (nIn nOut : Nat) :
    (create_node t vref parent nIn nOut).1.group_inputs = t.group_inputs := rfl

theorem create_node_sockets_length (t : InlinedNodeTree) (vref : VNodeRef)
    (parent : Option Nat) (nIn nOut : Nat) :
    (create_node t vref parent nIn nOut).1.sockets_by_id.length =
      t.sockets_by_id.length + (nIn + nOut) := by
  rw [create_node_sockets]
  simp [List.length_append, List.length_map, List.length_range]

theorem create_node_nodes_length (t : InlinedNodeTree) (vref : VNodeRef)
    (parent : Option Nat) (nIn nOut : Nat) :
    (create_node t vref parent nIn nOut).1.node_by_id.length =
      t.node_by_id.length + 1 := by
  rw [create_node_nodes]
  simp

theorem create_node_sockets_lt (t : InlinedNodeTree) (vref : VNodeRef)
    (parent : Option Nat) (nIn nOut : Nat) (j : Nat)
    (h : j < t.sockets_by_id.length) :
    (create_node t vref parent nIn nOut).1.sockets_by_id[j]? =
      t.sockets_by_id[j]? := by
  rw [create_node_sockets]
  exact getElem?_append_lt _ _ _ h

theorem create_node_sockets_ge (t : InlinedNodeTree) (vref : VNodeRef)
    (parent : Option Nat) (nIn nOut : Nat) (j : Nat)
    (h : t.sockets_by_id.length ≤ j) :
    (create_node t vref parent nIn nOut).1.sockets_by_id[j]? =
      (if j - t.sockets_by_id.length < nIn then
        some (XSocket.input t.node_by_id.length j
          ⟨vref.tree, vref.node, j - t.sockets_by_id.length⟩ [] [])
      else if j - t.sockets_by_id.length < nIn + nOut then
        some (XSocket.output t.node_by_id.length j
          ⟨vref.tree, vref.node, j - t.sockets_by_id.length - nIn⟩ [])
      else none) := by
  rw [create_node_sockets, getElem?_append_ge _ _ _ h]
  by_cases h1 : j - t.sockets_by_id.length < nIn
  · rw [getElem?_append_lt _ _ _
      (by rw [List.length_map, List.length_range]; exact h1)]
    rw [getElem?_map_range, if_pos h1, if_pos h1, Nat.add_sub_cancel' h]
  · rw [getElem?_append_ge _ _ _
      (by rw [List.length_map, List.length_range]; exact Nat.le_of_not_lt h1)]
    simp only [List.length_map, List.length_range]
    by_cases h2 : j - t.sockets_by_id.length < nIn + nOut
    · rw [getElem?_map_range, if_pos (by omega), if_neg h1, if_pos h2]
      have e : t.sockets_by_id.length + nIn +
          (j - t.sockets_by_id.length - nIn) = j := by omega
      rw [e]
    · rw [getElem?_map_range, if_neg (by omega), if_neg h1, if_neg h2]

theorem create_node_nodes_lt (t : InlinedNodeTree) (vref : VNodeRef)
    (parent : Option Nat) (nIn nOut : Nat) (j : Nat)
    (h : j < t.node_by_id.length) :
    (create_node t vref parent nIn nOut).1.node_by_id[j]? =
      t.node_by_id[j]? := by
  rw [create_node_nodes]
  exact getElem?_append_lt _ _ _ h

theorem create_node_nodes_ge (t : InlinedNodeTree) (vref : VNodeRef)
    (parent : Option Nat) (nIn nOut : Nat) (j : Nat)
    (h : t.node_by_id.length ≤ j) :
    (create_node t vref parent nIn nOut).1.node_by_id[j]? =
      (if j = t.node_by_id.length then
        some ⟨vref, parent, t.node_by_id.length,
          (List.range nIn).map (fun k => t.sockets_by_id.length + k),
          (List.range nOut).map (fun k => t.sockets_by_id.length + nIn + k)⟩
      else none) := by
  rw [create_node_nodes, getElem?_append_ge _ _ _ h]
  rcases Nat.lt_or_ge j (t.node_by_id.length + 1) with hj | hj
  · have e : j = t.node_by_id.length := by omega
    subst e
    simp
  · have e : ∃ m, j - t.node_by_id.length = m + 1 := ⟨j - t.node_by_id.length - 1, by omega⟩
    obtain ⟨m, hm⟩ := e
    rw [hm]
    have : j ≠ t.node_by_id.length := by omega
    simp [this]

theorem outLinks_create_node_lt (t : InlinedNodeTree) (vref : VNodeRef)
    (parent : Option Nat) (nIn nOut : Nat) (x : Nat)
    (h : x < t.sockets_by_id.length) :
    outLinks (create_node t vref parent nIn nOut).1 x = outLinks t x := by
  unfold outLinks
  rw [create_node_sockets_lt t vref parent nIn nOut x h]

theorem outLinks_create_node_ge (t : InlinedNodeTree) (vref : VNodeRef)
    (parent : Option Nat) (nIn nOut : Nat) (x : Nat)
    (h : t.sockets_by_id.length ≤ x) :
    outLinks (create_node t vref parent nIn nOut).1 x = [] := by
  unfold outLinks
  rw [create_node_sockets_ge t vref parent nIn nOut x h]
  by_cases h1 : x - t.sockets_by_id.length < nIn
  · rw [if_pos h1]
  · rw [if_neg h1]
    by_cases h2 : x - t.sockets_by_id.length < nIn + nOut
    · rw [if_pos h2]
    · rw [if_neg h2]

theorem inLinks_create_node_lt (t : InlinedNodeTree) (vref : VNodeRef)
    (parent : Option Nat) (nIn nOut : Nat) (x : Nat)
    (h : x < t.sockets_by_id.length) :
    inLinks (create_node t vref parent nIn nOut).1 x = inLinks t x := by
  unfold inLinks
  rw [create_node_sockets_lt t vref parent nIn nOut x h]

theorem inLinks_create_node_ge (t : InlinedNodeTree) (vref : VNodeRef)
    (parent : Option Nat) (nIn nOut : Nat) (x : Nat)
    (h : t.sockets_by_id.length ≤ x) :
    inLinks (create_node t vref parent nIn nOut).1 x = [] := by
  unfold inLinks
  rw [create_node_sockets_ge t vref parent nIn nOut x h]
  by_cases h1 : x - t.sockets_by_id.length < nIn
  · rw [if_pos h1]
  · rw [if_neg h1]
    by_cases h2 : x - t.sockets_by_id.length < nIn + nOut
    · rw [if_pos h2]
    · rw [if_neg h2]

/-! ## Preservation of the invariant by `create_node` -/

theorem linkSym_create_node (t : InlinedNodeTree) (vref : VNodeRef)
    (parent : Option Nat) (nIn nOut : Nat)
    (hs : LinkSym t) (hb : LinkBounds t) :
    LinkSym (create_node t vref parent nIn nOut).1 := by
  intro x y
  rcases Nat.lt_or_ge x t.sockets_by_id.length with hx | hx
  · rw [outLinks_create_node_lt t vref parent nIn nOut x hx]
    rcases Nat.lt_or_ge y t.sockets_by_id.length with hy | hy
    · rw [inLinks_create_node_lt t vref parent nIn nOut y hy]
      exact hs x y
    · rw [inLinks_create_node_ge t vref parent nIn nOut y hy]
      constructor
      · intro hc
        exact absurd (hb.1 x y hc) (Nat.not_lt.mpr hy)
      · intro hc
        simp at hc
  · rw [outLinks_create_node_ge t vref parent nIn nOut x hx]
    constructor
    · intro hc
      simp at hc
    · intro hc
      rcases Nat.lt_or_ge y t.sockets_by_id.length with hy | hy
      · rw [inLinks_create_node_lt t vref parent nIn nOut y hy] at hc
        exact absurd (hb.2 y x hc) (Nat.not_lt.mpr hx)
      · rw [inLinks_create_node_ge t vref parent nIn nOut y hy] at hc
        simp at hc

theorem linkBounds_create_node (t : InlinedNodeTree) (vref : VNodeRef)
    (parent : Option Nat) (nIn nOut : Nat) (hb : LinkBounds t) :
    LinkBounds (create_node t vref parent nIn nOut).1 := by
  constructor
  · intro x y hy
    rw [create_node_sockets_length]
    rcases Nat.lt_or_ge x t.sockets_by_id.length with hx | hx
    · rw [outLinks_create_node_lt t vref parent nIn nOut x hx] at hy
      exact Nat.lt_of_lt_of_le (hb.1 x y hy) (Nat.le_add_right _ _)
    · rw [outLinks_create_node_ge t vref parent nIn nOut x hx] at hy
      simp at hy
  · intro x y hy
    rw [create_node_sockets_length]
    rcases Nat.lt_or_ge x t.sockets_by_id.length with hx | hx
    · rw [inLinks_create_node_lt t vref parent nIn nOut x hx] at hy
      exact Nat.lt_of_lt_of_le (hb.2 x y hy) (Nat.le_add_right _ _)
    · rw [inLinks_create_node_ge t vref parent nIn nOut x hx] at hy
      simp at hy

theorem idsDense_create_node (t : InlinedNodeTree) (vref : VNodeRef)
    (parent : Option Nat) (nIn nOut : Nat) (hi : IdsDense t) :
    IdsDense (create_node t vref parent nIn nOut).1 := by
  constructor
  · rw [create_node_nodes_length, create_node_nodes, List.map_append, hi.1]
    rw [List.range_add]
    congr 1
  · rw [create_node_sockets_length, create_node_sockets, List.map_append,
      List.map_append, hi.2, List.map_map, List.map_map]
    rw [List.range_add, List.range_add, List.map_append, List.map_map]
    congr 2
    apply List.map_congr_left
    intro a _
    simp [Function.comp, XSocket.id]
    omega

theorem socketNode?_some_lt {t : InlinedNodeTree} {j x : Nat}
    (h : socketNode? t j = some x) : j < t.sockets_by_id.length :=
  lt_of_getElem?_map_some h

theorem socketNode?_create_node_lt (t : InlinedNodeTree) (vref : VNodeRef)
    (parent : Option Nat) (nIn nOut : Nat) (j : Nat)
    (h : j < t.sockets_by_id.length) :
    socketNode? (create_node t vref parent nIn nOut).1 j = socketNode? t j := by
  unfold socketNode?
  rw [create_node_sockets_lt t vref parent nIn nOut j h]

theorem socketVRef?_create_node_lt (t : InlinedNodeTree) (vref : VNodeRef)
    (parent : Option Nat) (nIn nOut : Nat) (j : Nat)
    (h : j < t.sockets_by_id.length) :
    socketVRef? (create_node t vref parent nIn nOut).1 j = socketVRef? t j := by
  unfold socketVRef?
  rw [create_node_sockets_lt t vref parent nIn nOut j h]

theorem socketIsInput?_create_node_lt (t : InlinedNodeTree) (vref : VNodeRef)
    (parent : Option Nat) (nIn nOut : Nat) (j : Nat)
    (h : j < t.sockets_by_id.length) :
    socketIsInput? (create_node t vref parent nIn nOut).1 j =
      socketIsInput? t j := by
  unfold socketIsInput?
  rw [create_node_sockets_lt t vref parent nIn nOut j h]

theorem socketIsOutput?_create_node_lt (t : InlinedNodeTree) (vref : VNodeRef)
    (parent : Option Nat) (nIn nOut : Nat) (j : Nat)
    (h : j < t.sockets_by_id.length) :
    socketIsOutput? (create_node t vref parent nIn nOut).1 j =
      socketIsOutput? t j := by
  unfold socketIsOutput?
  rw [create_node_sockets_lt t vref parent nIn nOut j h]

theorem create_node_socket_at_input (t : InlinedNodeTree) (vref : VNodeRef)
    (parent : Option Nat) (nIn nOut k : Nat) (hk : k < nIn) :
    (create_node t vref parent nIn nOut).1.sockets_by_id[t.sockets_by_id.length + k]? =
      some (XSocket.input t.node_by_id.length (t.sockets_by_id.length + k)
        ⟨vref.tree, vref.node, k⟩ [] []) := by
  rw [create_node_sockets_ge t vref parent nIn nOut _ (Nat.le_add_right _ _)]
  rw [Nat.add_sub_cancel_left, if_pos hk]

theorem create_node_socket_at_output (t : InlinedNodeTree) (vref : VNodeRef)
    (parent : Option Nat) (nIn nOut k : Nat) (hk : k < nOut) :
    (create_node t vref parent nIn nOut).1.sockets_by_id[t.sockets_by_id.length + nIn + k]? =
      some (XSocket.output t.node_by_id.length (t.sockets_by_id.length + nIn + k)
        ⟨vref.tree, vref.node, k⟩ []) := by
  rw [create_node_sockets_ge t vref parent nIn nOut _ (by omega)]
  have e1 : t.sockets_by_id.length + nIn + k - t.sockets_by_id.length = nIn + k := by
    omega
  rw [e1, if_neg (by omega), if_pos (by omega)]
  have e2 : nIn + k - nIn = k := by omega
  rw [e2]

theorem coherent_create_node (t : InlinedNodeTree) (vref : VNodeRef)
    (parent : Option Nat) (nIn nOut : Nat) (hc : Coherent t) :
    Coherent (create_node t vref parent nIn nOut).1 := by
  obtain ⟨hf, hb⟩ := hc
  constructor
  · intro nid xn hxn
    rcases Nat.lt_or_ge nid t.node_by_id.length with hn | hn
    · rw [create_node_nodes_lt t vref parent nIn nOut nid hn] at hxn
      obtain ⟨hfi, hfo⟩ := hf nid xn hxn
      constructor
      · intro k sid hsid
        obtain ⟨e1, e2, e3⟩ := hfi k sid hsid
        have hlt : sid < t.sockets_by_id.length := socketNode?_some_lt e1
        rw [socketNode?_create_node_lt t vref parent nIn nOut sid hlt,
          socketIsInput?_create_node_lt t vref parent nIn nOut sid hlt,
          socketVRef?_create_node_lt t vref parent nIn nOut sid hlt]
        exact ⟨e1, e2, e3⟩
      · intro k sid hsid
        obtain ⟨e1, e2, e3⟩ := hfo k sid hsid
        have hlt : sid < t.sockets_by_id.length := socketNode?_some_lt e1
        rw [socketNode?_create_node_lt t vref parent nIn nOut sid hlt,
          socketIsOutput?_create_node_lt t vref parent nIn nOut sid hlt,
          socketVRef?_create_node_lt t vref parent nIn nOut sid hlt]
        exact ⟨e1, e2, e3⟩
    · rw [create_node_nodes_ge t vref parent nIn nOut nid hn] at hxn
      by_cases he : nid = t.node_by_id.length
      · rw [if_pos he] at hxn
        injection hxn with hxn
        subst hxn
        subst he
        constructor
        · intro k sid hsid
          rw [getElem?_map_range] at hsid
          by_cases hk : k < nIn
          · rw [if_pos hk] at hsid
            injection hsid with hsid
            subst hsid
            unfold socketNode? socketIsInput? socketVRef?
            rw [create_node_socket_at_input t vref parent nIn nOut k hk]
            exact ⟨rfl, rfl, rfl⟩
          · rw [if_neg hk] at hsid
            cases hsid
        · intro k sid hsid
          rw [getElem?_map_range] at hsid
          by_cases hk : k < nOut
          · rw [if_pos hk] at hsid
            injection hsid with hsid
            subst hsid
            unfold socketNode? socketIsOutput? socketVRef?
            rw [create_node_socket_at_output t vref parent nIn nOut k hk]
            exact ⟨rfl, rfl, rfl⟩
          · rw [if_neg hk] at hsid
            cases hsid
      · rw [if_neg he] at hxn
        cases hxn
  · intro sid hsid
    rw [create_node_sockets_length] at hsid
    rcases Nat.lt_or_ge sid t.sockets_by_id.length with hlt | hge
    · obtain ⟨nid, xn, vr, e1, e2, e3, e4, e5, e6, e7⟩ := hb sid hlt
      have hnid : nid < t.node_by_id.length := (List.getElem?_eq_some.mp e2).1
      refine ⟨nid, xn, vr, ?_, ?_, ?_, e4, e5, ?_, ?_⟩
      · rw [socketNode?_create_node_lt t vref parent nIn nOut sid hlt]
        exact e1
      · rw [create_node_nodes_lt t vref parent nIn nOut nid hnid]
        exact e2
      · rw [socketVRef?_create_node_lt t vref parent nIn nOut sid hlt]
        exact e3
      · rw [socketIsInput?_create_node_lt t vref parent nIn nOut sid hlt]
        exact e6
      · rw [socketIsOutput?_create_node_lt t vref parent nIn nOut sid hlt]
        exact e7
    · have hsock := create_node_sockets_ge t vref parent nIn nOut sid hge
      by_cases h1 : sid - t.sockets_by_id.length < nIn
      · rw [if_pos h1] at hsock
        refine ⟨t.node_by_id.length,
          ⟨vref, parent, t.node_by_id.length,
            (List.range nIn).map (fun k => t.sockets_by_id.length + k),
            (List.range nOut).map (fun k => t.sockets_by_id.length + nIn + k)⟩,
          ⟨vref.tree, vref.node, sid - t.sockets_by_id.length⟩,
          ?_, ?_, ?_, rfl, rfl, ?_, ?_⟩
        · unfold socketNode?
          rw [hsock]
          rfl
        · rw [create_node_nodes_ge t vref parent nIn nOut _ (Nat.le_refl _),
            if_pos rfl]
        · unfold socketVRef?
          rw [hsock]
          rfl
        · intro _
          simp only []
          rw [getElem?_map_range, if_pos h1]
          have e : t.sockets_by_id.length + (sid - t.sockets_by_id.length) = sid := by
            omega
          rw [e]
        · intro hcon
          unfold socketIsOutput? at hcon
          rw [hsock] at hcon
          simp [XSocket.isOutput] at hcon
      · rw [if_neg h1] at hsock
        have h2 : sid - t.sockets_by_id.length < nIn + nOut := by omega
        rw [if_pos h2] at hsock
        refine ⟨t.node_by_id.length,
          ⟨vref, parent, t.node_by_id.length,
            (List.range nIn).map (fun k => t.sockets_by_id.length + k),
            (List.range nOut).map (fun k => t.sockets_by_id.length + nIn + k)⟩,
          ⟨vref.tree, vref.node, sid - t.sockets_by_id.length - nIn⟩,
          ?_, ?_, ?_, rfl, rfl, ?_, ?_⟩
        · unfold socketNode?
          rw [hsock]
          rfl
        · rw [create_node_nodes_ge t vref parent nIn nOut _ (Nat.le_refl _),
            if_pos rfl]
        · unfold socketVRef?
          rw [hsock]
          rfl
        · intro hcon
          unfold socketIsInput? at hcon
          rw [hsock] at hcon
          simp [XSocket.isInput] at hcon
        · intro _
          simp only []
          rw [getElem?_map_range, if_pos (by omega)]
          have e : t.sockets_by_id.length + nIn +
              (sid - t.sockets_by_id.length - nIn) = sid := by omega
          rw [e]

theorem consInv_create_node (t : InlinedNodeTree) (vref : VNodeRef)
    (parent : Option Nat) (nIn nOut : Nat) (h : ConsInv t) :
    ConsInv (create_node t vref parent nIn nOut).1 :=
  ⟨linkSym_create_node t vref parent nIn nOut h.1 h.2.1,
   linkBounds_create_node t vref parent nIn nOut h.2.1,
   idsDense_create_node t vref parent nIn nOut h.2.2.1,
   coherent_create_node t vref parent nIn nOut h.2.2.2⟩

theorem obs_connect (t : InlinedNodeTree) (o i j : Nat) (g : XSocket → β)
    (hg1 : ∀ s k, g (s.withLinkedInput k) = g s)
    (hg2 : ∀ s k, g (s.withLinkedOutput k) = g s) :
    ((connect t o i).sockets_by_id[j]?).map g =
      ((t.sockets_by_id[j]?)).map g := by
  by_cases h : (isOutputAt t o && isInputAt t i) = true
  · rw [connect_sockets_of_guard t o i h,
      getElem?_map_updateAt _ _ _ _ _ (fun a => hg2 a o),
      getElem?_map_updateAt _ _ _ _ _ (fun a => hg1 a i)]
  · rw [connect_guard_false t o i (by simpa using h)]

theorem idsDense_connect (t : InlinedNodeTree) (o i : Nat)
    (hi : IdsDense t) : IdsDense (connect t o i) := by
  constructor
  · rw [connect_node_by_id]
    exact hi.1
  · by_cases h : (isOutputAt t o && isInputAt t i) = true
    · rw [connect_sockets_of_guard t o i h, updateAt_length, updateAt_length,
        map_updateAt_eq _ _ _ _ (fun a => id_withLinkedOutput a o),
        map_updateAt_eq _ _ _ _ (fun a => id_withLinkedInput a i)]
      exact hi.2
    · rw [connect_guard_false t o i (by simpa using h)]
      exact hi.2

theorem coherent_connect (t : InlinedNodeTree) (o i : Nat)
    (hc : Coherent t) : Coherent (connect t o i) := by
  refine coherent_of_obs_eq t (connect t o i) (connect_node_by_id t o i)
    (connect_sockets_length t o i) ?_ ?_ ?_ ?_ hc
  · intro j
    exact obs_connect t o i j XSocket.node node_withLinkedInput node_withLinkedOutput
  · intro j
    exact obs_connect t o i j XSocket.vsocket vsocket_withLinkedInput
      vsocket_withLinkedOutput
  · intro j
    exact obs_connect t o i j XSocket.isInput isInput_withLinkedInput
      isInput_withLinkedOutput
  · intro j
    exact obs_connect t o i j XSocket.isOutput isOutput_withLinkedInput
      isOutput_withLinkedOutput

theorem consInv_connect (t : InlinedNodeTree) (o i : Nat) (h : ConsInv t) :
    ConsInv (connect t o i) :=
  ⟨linkSym_connect t o i h.1, linkBounds_connect t o i h.2.1,
   idsDense_connect t o i h.2.2.1, coherent_connect t o i h.2.2.2⟩

theorem consInv_initial : ConsInv initialGraph := by
  refine ⟨?_, ⟨?_, ?_⟩, ⟨rfl, rfl⟩, ⟨?_, ?_⟩⟩
  · intro o i
    simp [outLinks, inLinks, initialGraph]
  · intro o i h
    simp [outLinks, initialGraph] at h
  · intro i o h
    simp [inLinks, initialGraph] at h
  · intro nid xn h
    simp [initialGraph] at h
  · intro sid h
    simp [initialGraph] at h

/-! ## The invariant through the whole construction -/

theorem except_bind_ok (a : α) (f : α → Except ε β) :
    Except.bind (Except.ok a) f = f a := rfl

theorem except_bind_error (e : ε) (f : α → Except ε β) :
    Except.bind (Except.error e : Except ε α) f = Except.error e := rfl

theorem except_map_ok (a : α) (f : α → β) :
    Except.map f (Except.ok a : Except ε α) = Except.ok (f a) := rfl

theorem except_map_error (e : ε) (f : α → β) :
    Except.map f (Except.error e : Except ε α) = Except.error e := rfl

theorem consInv_connect_fold (sids : List Nat) (o : Nat)
    (st : InlinedNodeTree) (h : ConsInv st) :
    ConsInv (sids.foldl (fun s i => connect s o i) st) := by
  induction sids generalizing st with
  | nil => exact h
  | cons a rest ih => exact ih _ (consInv_connect st o a h)

theorem consInv_processLinks (tree : VirtualNodeTree)
    (entries : List ScopeEntry) (links : List VLink)
    (st : InlinedNodeTree) (bnd : List (Nat × Nat))
    (st' : InlinedNodeTree) (bnd' : List (Nat × Nat))
    (hok : processLinks tree entries links (st, bnd) = .ok (st', bnd'))
    (h : ConsInv st) : ConsInv st' := by
  induction links generalizing st bnd with
  | nil =>
      simp only [processLinks] at hok
      injection hok with hok
      injection hok with h1 h2
      rw [← h1]
      exact h
  | cons l rest ih =>
      simp only [processLinks] at hok
      cases hres : resolveInputSockets tree entries st l.dstNode l.dstSocket with
      | error e =>
          rw [hres, except_bind_error] at hok
          cases hok
      | ok sids =>
          rw [hres, except_bind_ok] at hok
          cases hsrc : l.src with
          | nodeOutput a m =>
              rw [hsrc] at hok
              simp only [] at hok
              cases hro : resolveOutputSocket entries st a m with
              | error e =>
                  rw [hro, except_bind_error] at hok
                  cases hok
              | ok o =>
                  rw [hro, except_bind_ok] at hok
                  exact ih _ _ hok (consInv_connect_fold sids o st h)
          | boundaryInput j =>
              rw [hsrc] at hok
              simp only [] at hok
              exact ih _ _ hok h

theorem consInv_attach_fold (sids : List Nat) (g : Nat)
    (st : InlinedNodeTree) (h : ConsInv st) :
    ConsInv (sids.foldl (fun s i => attachGroupInput s g i) st) := by
  induction sids generalizing st with
  | nil => exact h
  | cons a rest ih => exact ih _ (consInv_attach st g a h)

theorem consInv_createGroupInputFor (tid gIdx pid : Nat)
    (boundary : List (Nat × Nat)) (st : InlinedNodeTree) (k : Nat)
    (h : ConsInv st) : ConsInv (createGroupInputFor tid gIdx pid boundary st k) := by
  unfold createGroupInputFor
  exact consInv_attach_fold _ _ _ (consInv_create_group_input st _ _ h)

theorem consInv_foldl {α : Type} {f : InlinedNodeTree → α → InlinedNodeTree}
    (hf : ∀ s a, ConsInv s → ConsInv (f s a)) (l : List α)
    (st : InlinedNodeTree) (h : ConsInv st) : ConsInv (l.foldl f st) := by
  induction l generalizing st with
  | nil => exact h
  | cons a rest ih => exact ih _ (hf st a h)

theorem consInv_reconcileEntry (tid : Nat) (links : List VLink) (gIdx : Nat)
    (e : ScopeEntry) (st : InlinedNodeTree) (h : ConsInv st) :
    ConsInv (reconcileEntry tid links gIdx e st) := by
  cases e with
  | plainNode _ => exact h
  | groupNode pid boundary =>
      unfold reconcileEntry
      refine consInv_foldl ?_ _ _ h
      intro s k hs
      by_cases hfed : boundaryFed links gIdx k = true
      · rw [if_pos hfed]
        exact hs
      · rw [if_neg hfed]
        exact consInv_createGroupInputFor tid gIdx pid boundary s k hs

theorem consInv_reconcileGroups (tid : Nat) (links : List VLink)
    (entries : List ScopeEntry) (gIdx : Nat) (st : InlinedNodeTree)
    (h : ConsInv st) : ConsInv (reconcileGroups tid links entries gIdx st) := by
  induction entries generalizing gIdx st with
  | nil => exact h
  | cons e rest ih =>
      exact ih _ _ (consInv_reconcileEntry tid links gIdx e st h)

theorem consInv_expandNodes
    (expandSub : Nat → VirtualNodeTree → Option Nat → InlinedNodeTree →
      Except BuildError (InlinedNodeTree × List (Nat × Nat)))
    (hsub : ∀ tid tree p st st' bnd,
      expandSub tid tree p st = .ok (st', bnd) → ConsInv st → ConsInv st')
    (vtrees : BTreeVTreeMap) (tid : Nat) (ns : List VNode) (idx : Nat)
    (parent : Option Nat) (st : InlinedNodeTree)
    (st' : InlinedNodeTree) (entries : List ScopeEntry)
    (hok : expandNodes expandSub vtrees tid ns idx parent st = .ok (st', entries))
    (h : ConsInv st) : ConsInv st' := by
  induction ns generalizing idx st entries with
  | nil =>
      simp only [expandNodes] at hok
      injection hok with hok
      injection hok with h1 h2
      rw [← h1]
      exact h
  | cons vn rest ih =>
      simp only [expandNodes] at hok
      cases hg : vn.groupTree with
      | none =>
          rw [hg] at hok
          simp only [] at hok
          cases hrest : expandNodes expandSub vtrees tid rest (idx + 1) parent
              (create_node st ⟨tid, idx⟩ parent vn.numInputs vn.numOutputs).1 with
          | error e =>
              rw [hrest, except_map_error] at hok
              cases hok
          | ok pr =>
              obtain ⟨prSt, prE⟩ := pr
              rw [hrest, except_map_ok] at hok
              injection hok with hok
              injection hok with h1 h2
              subst h1
              exact ih _ _ _ hrest
                (consInv_create_node st ⟨tid, idx⟩ parent vn.numInputs vn.numOutputs h)
      | some subTid =>
          rw [hg] at hok
          simp only [] at hok
          cases hv : vtrees subTid with
          | none =>
              rw [hv] at hok
              simp only [] at hok
              cases hok
          | some subTree =>
              rw [hv] at hok
              simp only [] at hok
              cases hexp : expandSub subTid subTree
                  (some (create_parent_node st ⟨tid, idx⟩ parent).2)
                  (create_parent_node st ⟨tid, idx⟩ parent).1 with
              | error e =>
                  rw [hexp, except_bind_error] at hok
                  cases hok
              | ok pr =>
                  obtain ⟨subSt, subBnd⟩ := pr
                  rw [hexp, except_bind_ok] at hok
                  cases hrest : expandNodes expandSub vtrees tid rest (idx + 1)
                      parent subSt with
                  | error e =>
                      rw [hrest, except_map_error] at hok
                      cases hok
                  | ok pr2 =>
                      obtain ⟨pr2St, pr2E⟩ := pr2
                      rw [hrest, except_map_ok] at hok
                      injection hok with hok
                      injection hok with h1 h2
                      subst h1
                      refine ih _ _ _ hrest ?_
                      refine hsub subTid subTree _ _ _ _ hexp ?_
                      exact consInv_create_parent_node st ⟨tid, idx⟩ parent h

theorem consInv_expandTree (vtrees : BTreeVTreeMap) (fuel : Nat) :
    ∀ tid tree parent st st' bnd,
      expandTree vtrees fuel tid tree parent st = .ok (st', bnd) →
      ConsInv st → ConsInv st' := by
  induction fuel with
  | zero =>
      intro tid tree parent st st' bnd hok
      cases hok
  | succ fuel ih =>
      intro tid tree parent st st' bnd hok h
      simp only [expandTree] at hok
      cases hn : expandNodes (expandTree vtrees fuel) vtrees tid tree.nodes 0
          parent st with
      | error e =>
          rw [hn, except_bind_error] at hok
          cases hok
      | ok pr =>
          rw [hn, except_bind_ok] at hok
          cases hl : processLinks tree pr.2 tree.links (pr.1, []) with
          | error e =>
              rw [hl, except_map_error] at hok
              cases hok
          | ok pr2 =>
              rw [hl, except_map_ok] at hok
              injection hok with hok
              injection hok with h1 h2
              rw [← h1]
              have hinv1 : ConsInv pr.1 :=
                consInv_expandNodes (expandTree vtrees fuel) ih vtrees tid
                  tree.nodes 0 parent st pr.1 pr.2 (by rw [← hn]) h
              have hinv2 : ConsInv pr2.1 :=
                consInv_processLinks tree pr.2 tree.links pr.1 [] pr2.1 pr2.2
                  (by rw [← hl]) hinv1
              exact consInv_reconcileGroups tid tree.links pr.2 0 pr2.1 hinv2

theorem consInv_build (vtrees : BTreeVTreeMap) (rootId fuel : Nat)
    (g : InlinedNodeTree) (hok : build vtrees rootId fuel = .ok g) :
    ConsInv g := by
  unfold build at hok
  cases hv : vtrees rootId with
  | none =>
      rw [hv] at hok
      simp only [] at hok
      cases hok
  | some tree =>
      rw [hv] at hok
      simp only [] at hok
      cases he : expandTree vtrees fuel rootId tree none initialGraph with
      | error e =>
          rw [he, except_map_error] at hok
          cases hok
      | ok pr =>
          rw [he, except_map_ok] at hok
          injection hok with hok
          rw [← hok]
          exact consInv_expandTree vtrees fuel rootId tree none initialGraph
            pr.1 pr.2 (by rw [← he]) consInv_initial

/-- C2: in every constructed graph, for every inlined output socket `O`
and every inlined input socket `I`, `O`'s linked-socket list contains `I`
iff `I`'s linked-socket list contains `O` — links are stored symmetrically
on both endpoints, with no one-sided link. -/
theorem C2_link_symmetry (vtrees : BTreeVTreeMap) (rootId fuel : Nat)
    (g : InlinedNodeTree) (hok : build vtrees rootId fuel = .ok g)
    (o i : Nat) (so si : XSocket)
    (ho : g.sockets_by_id[o]? = some so) (hso : so.isOutput = true)
    (hi : g.sockets_by_id[i]? = some si) (hsi : si.isInput = true) :
    i ∈ so.linkedSockets ↔ o ∈ si.linkedSockets := by
  have hsym := (consInv_build vtrees rootId fuel g hok).1
  have e1 : outLinks g o = so.linkedSockets := by
    unfold outLinks
    rw [ho]
    cases so with
    | input _ _ _ _ _ => simp [XSocket.isOutput] at hso
    | output n id v ls => rfl
  have e2 : inLinks g i = si.linkedSockets := by
    unfold inLinks
    rw [hi]
    cases si with
    | input n id v ls lg => rfl
    | output _ _ _ _ => simp [XSocket.isInput] at hsi
  rw [← e1, ← e2]
  exact hsym o i

/-- Witness for C2 at the section 8 scenario graph: socket 0 is `A`'s
output, socket 1 is `B`'s input, and they list each other. -/
theorem C2_link_symmetry_witness :
    1 ∈ (XSocket.output 0 0 ⟨0, 0, 0⟩ [1]).linkedSockets ↔
    0 ∈ (XSocket.input 1 1 ⟨1, 0, 0⟩ [0] []).linkedSockets :=
  C2_link_symmetry c1Cache 0 10 c1Graph rfl 0 1
    (XSocket.output 0 0 ⟨0, 0, 0⟩ [1]) (XSocket.input 1 1 ⟨1, 0, 0⟩ [0] [])
    rfl rfl rfl rfl

/-- C3: in every constructed graph the node ids are exactly
`0 .. nodeCount-1` in store order and the socket ids are exactly
`0 .. socketCount-1` in store order — two separate dense id spaces (one
for nodes, one combined space over both input and output sockets), with
no id reused or skipped. -/
theorem C3_id_density (vtrees : BTreeVTreeMap) (rootId fuel : Nat)
    (g : InlinedNodeTree) (hok : build vtrees rootId fuel = .ok g) :
    g.node_by_id.map XNode.id = List.range g.node_by_id.length ∧
    g.sockets_by_id.map XSocket.id = List.range g.sockets_by_id.length :=
  (consInv_build vtrees rootId fuel g hok).2.2.1

/-- Witness for C3 at the section 8 scenario graph. -/
theorem C3_id_density_witness :
    c1Graph.node_by_id.map XNode.id = List.range c1Graph.node_by_id.length ∧
    c1Graph.sockets_by_id.map XSocket.id = List.range c1Graph.sockets_by_id.length :=
  C3_id_density c1Cache 0 10 c1Graph rfl

/-- C9: in every constructed graph, every socket belongs to exactly one
node: its `node()` back-reference names a node whose input (for inputs)
or output (for outputs) list contains the socket at the position equal to
the originating virtual socket's position, and no other node or position
lists the socket. -/
theorem C9_socket_ownership (vtrees : BTreeVTreeMap) (rootId fuel : Nat)
    (g : InlinedNodeTree) (hok : build vtrees rootId fuel = .ok g)
    (sid : Nat) (s : XSocket) (hs : g.sockets_by_id[sid]? = some s) :
    (∃ xn, g.node_by_id[s.node]? = some xn ∧
      (s.isInput = true → xn.inputs[s.vsocket.socket]? = some sid) ∧
      (s.isOutput = true → xn.outputs[s.vsocket.socket]? = some sid)) ∧
    (∀ nid xn k, g.node_by_id[nid]? = some xn →
      (xn.inputs[k]? = some sid → nid = s.node ∧ k = s.vsocket.socket) ∧
      (xn.outputs[k]? = some sid → nid = s.node ∧ k = s.vsocket.socket)) := by
  obtain ⟨hf, hb⟩ := (consInv_build vtrees rootId fuel g hok).2.2.2
  have hlt : sid < g.sockets_by_id.length := (List.getElem?_eq_some.mp hs).1
  have hnodeobs : socketNode? g sid = some s.node := by
    unfold socketNode?
    rw [hs]
    rfl
  have hvrobs : socketVRef? g sid = some s.vsocket := by
    unfold socketVRef?
    rw [hs]
    rfl
  have hinobs : socketIsInput? g sid = some s.isInput := by
    unfold socketIsInput?
    rw [hs]
    rfl
  have houtobs : socketIsOutput? g sid = some s.isOutput := by
    unfold socketIsOutput?
    rw [hs]
    rfl
  constructor
  · obtain ⟨nid, xn, vr, e1, e2, e3, e4, e5, e6, e7⟩ := hb sid hlt
    have hnid : nid = s.node := by
      rw [hnodeobs] at e1
      injection e1 with e
      exact e.symm
    have hvr : vr = s.vsocket := by
      rw [hvrobs] at e3
      injection e3 with e
      exact e.symm
    subst hnid
    subst hvr
    refine ⟨xn, e2, ?_, ?_⟩
    · intro hin
      exact e6 (by rw [hinobs, hin])
    · intro hout
      exact e7 (by rw [houtobs, hout])
  · intro nid xn k hxn
    constructor
    · intro hin
      obtain ⟨u1, u2, u3⟩ := (hf nid xn hxn).1 k sid hin
      have h1 : s.node = nid := by
        rw [hnodeobs] at u1
        injection u1
      have h2 : s.vsocket = ⟨xn.vnode.tree, xn.vnode.node, k⟩ := by
        rw [hvrobs] at u3
        injection u3
      exact ⟨h1.symm, by rw [h2]⟩
    · intro hout
      obtain ⟨u1, u2, u3⟩ := (hf nid xn hxn).2 k sid hout
      have h1 : s.node = nid := by
        rw [hnodeobs] at u1
        injection u1
      have h2 : s.vsocket = ⟨xn.vnode.tree, xn.vnode.node, k⟩ := by
        rw [hvrobs] at u3
        injection u3
      exact ⟨h1.symm, by rw [h2]⟩

/-- Witness for C9 at the section 8 scenario graph: socket 1 (`B`'s
input) is owned by node 1 at input position 0. -/
theorem C9_socket_ownership_witness :
    (∃ xn, c1Graph.node_by_id[(XSocket.input 1 1 ⟨1, 0, 0⟩ [0] []).node]? = some xn ∧
      ((XSocket.input 1 1 ⟨1, 0, 0⟩ [0] []).isInput = true →
        xn.inputs[(XSocket.input 1 1 ⟨1, 0, 0⟩ [0] []).vsocket.socket]? = some 1) ∧
      ((XSocket.input 1 1 ⟨1, 0, 0⟩ [0] []).isOutput = true →
        xn.outputs[(XSocket.input 1 1 ⟨1, 0, 0⟩ [0] []).vsocket.socket]? = some 1)) ∧
    (∀ nid xn k, c1Graph.node_by_id[nid]? = some xn →
      (xn.inputs[k]? = some 1 →
        nid = (XSocket.input 1 1 ⟨1, 0, 0⟩ [0] []).node ∧
        k = (XSocket.input 1 1 ⟨1, 0, 0⟩ [0] []).vsocket.socket) ∧
      (xn.outputs[k]? = some 1 →
        nid = (XSocket.input 1 1 ⟨1, 0, 0⟩ [0] []).node ∧
        k = (XSocket.input 1 1 ⟨1, 0, 0⟩ [0] []).vsocket.socket)) :=
  C9_socket_ownership c1Cache 0 10 c1Graph rfl 1
    (XSocket.input 1 1 ⟨1, 0, 0⟩ [0] []) rfl

/-! ## Node-store extension through the construction (for C7 and C4) -/

/-- The node store only ever grows: previously created nodes persist. -/
def NodesExtend (t t' : InlinedNodeTree) : Prop :=
  ∀ (j : Nat) (xn : XNode), t.node_by_id[j]? = some xn → t'.node_by_id[j]? = some xn

theorem nodesExtend_refl (t : InlinedNodeTree) : NodesExtend t t :=
  fun _ _ h => h

theorem nodesExtend_trans {a b c : InlinedNodeTree}
    (h1 : NodesExtend a b) (h2 : NodesExtend b c) : NodesExtend a c :=
  fun j xn h => h2 j xn (h1 j xn h)

theorem nodesExtend_of_eq {a b : InlinedNodeTree}
    (h : b.node_by_id = a.node_by_id) : NodesExtend a b := by
  intro j xn hj
  rw [h]
  exact hj

theorem nodesExtend_create_node (t : InlinedNodeTree) (vref : VNodeRef)
    (parent : Option Nat) (nIn nOut : Nat) :
    NodesExtend t (create_node t vref parent nIn nOut).1 := by
  intro j xn hj
  have hlt : j < t.node_by_id.length := (List.getElem?_eq_some.mp hj).1
  rw [create_node_nodes_lt t vref parent nIn nOut j hlt]
  exact hj

theorem nodesExtend_connect_fold (sids : List Nat) (o : Nat)
    (st : InlinedNodeTree) :
    NodesExtend st (sids.foldl (fun s i => connect s o i) st) := by
  induction sids generalizing st with
  | nil => exact nodesExtend_refl st
  | cons a rest ih =>
      exact nodesExtend_trans
        (nodesExtend_of_eq (connect_node_by_id st o a)) (ih _)

theorem nodesExtend_processLinks (tree : VirtualNodeTree)
    (entries : List ScopeEntry) (links : List VLink)
    (st : InlinedNodeTree) (bnd : List (Nat × Nat))
    (st' : InlinedNodeTree) (bnd' : List (Nat × Nat))
    (hok : processLinks tree entries links (st, bnd) = .ok (st', bnd')) :
    NodesExtend st st' := by
  induction links generalizing st bnd with
  | nil =>
      simp only [processLinks] at hok
      injection hok with hok
      injection hok with h1 h2
      rw [← h1]
      exact nodesExtend_refl st
  | cons l rest ih =>
      simp only [processLinks] at hok
      cases hres : resolveInputSockets tree entries st l.dstNode l.dstSocket with
      | error e =>
          rw [hres, except_bind_error] at hok
          cases hok
      | ok sids =>
          rw [hres, except_bind_ok] at hok
          cases hsrc : l.src with
          | nodeOutput a m =>
              rw [hsrc] at hok
              simp only [] at hok
              cases hro : resolveOutputSocket entries st a m with
              | error e =>
                  rw [hro, except_bind_error] at hok
                  cases hok
              | ok o =>
                  rw [hro, except_bind_ok] at hok
                  exact nodesExtend_trans (nodesExtend_connect_fold sids o st)
                    (ih _ _ hok)
          | boundaryInput j =>
              rw [hsrc] at hok
              simp only [] at hok
              exact ih _ _ hok

theorem attach_fold_node_by_id (sids : List Nat) (g : Nat)
    (st : InlinedNodeTree) :
    (sids.foldl (fun s i => attachGroupInput s g i) st).node_by_id =
      st.node_by_id := by
  induction sids generalizing st with
  | nil => rfl
  | cons a rest ih =>
      rw [List.foldl_cons, ih]
      rfl

theorem createGroupInputFor_node_by_id (tid gIdx pid : Nat)
    (boundary : List (Nat × Nat)) (st : InlinedNodeTree) (k : Nat) :
    (createGroupInputFor tid gIdx pid boundary st k).node_by_id =
      st.node_by_id := by
  unfold createGroupInputFor
  rw [attach_fold_node_by_id]
  rfl

theorem reconcileEntry_node_by_id (tid : Nat) (links : List VLink)
    (gIdx : Nat) (e : ScopeEntry) (st : InlinedNodeTree) :
    (reconcileEntry tid links gIdx e st).node_by_id = st.node_by_id := by
  cases e with
  | plainNode _ => rfl
  | groupNode pid boundary =>
      simp only [reconcileEntry]
      generalize dedupKeys (boundary.map (fun e => e.1)) [] = keys
      induction keys generalizing st with
      | nil => rfl
      | cons k rest ih =>
          rw [List.foldl_cons, ih]
          by_cases hfed : boundaryFed links gIdx k = true
          · rw [if_pos hfed]
          · rw [if_neg hfed]
            rw [createGroupInputFor_node_by_id]

theorem reconcileGroups_node_by_id (tid : Nat) (links : List VLink)
    (entries : List ScopeEntry) (gIdx : Nat) (st : InlinedNodeTree) :
    (reconcileGroups tid links entries gIdx st).node_by_id = st.node_by_id := by
  induction entries generalizing gIdx st with
  | nil => rfl
  | cons e rest ih =>
      unfold reconcileGroups
      rw [ih, reconcileEntry_node_by_id]

theorem nodesExtend_expandNodes
    (expandSub : Nat → VirtualNodeTree → Option Nat → InlinedNodeTree →
      Except BuildError (InlinedNodeTree × List (Nat × Nat)))
    (hsub : ∀ tid tree p st st' bnd,
      expandSub tid tree p st = .ok (st', bnd) → NodesExtend st st')
    (vtrees : BTreeVTreeMap) (tid : Nat) (ns : List VNode) (idx : Nat)
    (parent : Option Nat) (st : InlinedNodeTree)
    (st' : InlinedNodeTree) (entries : List ScopeEntry)
    (hok : expandNodes expandSub vtrees tid ns idx parent st = .ok (st', entries)) :
    NodesExtend st st' := by
  induction ns generalizing idx st entries with
  | nil =>
      simp only [expandNodes] at hok
      injection hok with hok
      injection hok with h1 h2
      rw [← h1]
      exact nodesExtend_refl st
  | cons vn rest ih =>
      simp only [expandNodes] at hok
      cases hg : vn.groupTree with
      | none =>
          rw [hg] at hok
          simp only [] at hok
          cases hrest : expandNodes expandSub vtrees tid rest (idx + 1) parent
              (create_node st ⟨tid, idx⟩ parent vn.numInputs vn.numOutputs).1 with
          | error e =>
              rw [hrest, except_map_error] at hok
              cases hok
          | ok pr =>
              obtain ⟨prSt, prE⟩ := pr
              rw [hrest, except_map_ok] at hok
              injection hok with hok
              injection hok with h1 h2
              subst h1
              exact nodesExtend_trans
                (nodesExtend_create_node st ⟨tid, idx⟩ parent vn.numInputs vn.numOutputs)
                (ih _ _ _ hrest)
      | some subTid =>
          rw [hg] at hok
          simp only [] at hok
          cases hv : vtrees subTid with
          | none =>
              rw [hv] at hok
              simp only [] at hok
              cases hok
          | some subTree =>
              rw [hv] at hok
              simp only [] at hok
              cases hexp : expandSub subTid subTree
                  (some (create_parent_node st ⟨tid, idx⟩ parent).2)
                  (create_parent_node st ⟨tid, idx⟩ parent).1 with
              | error e =>
                  rw [hexp, except_bind_error] at hok
                  cases hok
              | ok pr =>
                  obtain ⟨subSt, subBnd⟩ := pr
                  rw [hexp, except_bind_ok] at hok
                  cases hrest : expandNodes expandSub vtrees tid rest (idx + 1)
                      parent subSt with
                  | error e =>
                      rw [hrest, except_map_error] at hok
                      cases hok
                  | ok pr2 =>
                      obtain ⟨pr2St, pr2E⟩ := pr2
                      rw [hrest, except_map_ok] at hok
                      injection hok with hok
                      injection hok with h1 h2
                      subst h1
                      have e1 : NodesExtend st
                          (create_parent_node st ⟨tid, idx⟩ parent).1 :=
                        nodesExtend_of_eq rfl
                      have e2 : NodesExtend
                          (create_parent_node st ⟨tid, idx⟩ parent).1 subSt :=
                        hsub subTid subTree _ _ _ _ hexp
                      exact nodesExtend_trans e1
                        (nodesExtend_trans e2 (ih _ _ _ hrest))

theorem nodesExtend_expandTree (vtrees : BTreeVTreeMap) (fuel : Nat) :
    ∀ tid tree parent st st' bnd,
      expandTree vtrees fuel tid tree parent st = .ok (st', bnd) →
      NodesExtend st st' := by
  induction fuel with
  | zero =>
      intro tid tree parent st st' bnd hok
      cases hok
  | succ fuel ih =>
      intro tid tree parent st st' bnd hok
      simp only [expandTree] at hok
      cases hn : expandNodes (expandTree vtrees fuel) vtrees tid tree.nodes 0
          parent st with
      | error e =>
          rw [hn, except_bind_error] at hok
          cases hok
      | ok pr =>
          rw [hn, except_bind_ok] at hok
          cases hl : processLinks tree pr.2 tree.links (pr.1, []) with
          | error e =>
              rw [hl, except_map_error] at hok
              cases hok
          | ok pr2 =>
              rw [hl, except_map_ok] at hok
              injection hok with hok
              injection hok with h1 h2
              rw [← h1]
              refine nodesExtend_trans
                (nodesExtend_expandNodes (expandTree vtrees fuel) ih vtrees tid
                  tree.nodes 0 parent st pr.1 pr.2 (by rw [← hn])) ?_
              refine nodesExtend_trans
                (nodesExtend_processLinks tree pr.2 tree.links pr.1 [] pr2.1 pr2.2
                  (by rw [← hl])) ?_
              exact nodesExtend_of_eq (reconcileGroups_node_by_id tid tree.links pr.2 0 pr2.1)

/-! ## Scope-index/entry relation and failure of malformed input (C7) -/

/-- A plain virtual node is backed by a materialized node of matching
arities; a group virtual node is backed by a group entry. -/
def EntryMatches (st : InlinedNodeTree) (vn : VNode) (e : ScopeEntry) : Prop :=
  match vn.groupTree, e with
  | none, .plainNode nid =>
      ∃ xn, st.node_by_id[nid]? = some xn ∧
        xn.inputs.length = vn.numInputs ∧ xn.outputs.length = vn.numOutputs
  | some _, .groupNode _ _ => True
  | _, _ => False

/-- The scope entries are parallel to the virtual nodes and each matches. -/
def EntriesRel (st : InlinedNodeTree) : List VNode → List ScopeEntry → Prop
  | [], [] => True
  | vn :: ns, e :: es => EntryMatches st vn e ∧ EntriesRel st ns es
  | [], _ :: _ => False
  | _ :: _, [] => False

theorem entryMatches_extend {st st' : InlinedNodeTree}
    (h : NodesExtend st st') (vn : VNode) (e : ScopeEntry)
    (hm : EntryMatches st vn e) : EntryMatches st' vn e := by
  unfold EntryMatches at hm ⊢
  cases hg : vn.groupTree with
  | none =>
      rw [hg] at hm
      cases e with
      | plainNode nid =>
          simp only [] at hm ⊢
          obtain ⟨xn, h1, h2, h3⟩ := hm
          exact ⟨xn, h nid xn h1, h2, h3⟩
      | groupNode _ _ =>
          simp only [] at hm
  | some sub =>
      rw [hg] at hm
      cases e with
      | plainNode _ => simp only [] at hm
      | groupNode _ _ => simp only []

theorem entriesRel_extend {st st' : InlinedNodeTree}
    (h : NodesExtend st st') (ns : List VNode) (es : List ScopeEntry)
    (hr : EntriesRel st ns es) : EntriesRel st' ns es := by
  induction ns generalizing es with
  | nil =>
      cases es with
      | nil => trivial
      | cons _ _ => exact hr.elim
  | cons vn rest ih =>
      cases es with
      | nil => exact hr.elim
      | cons e es' =>
          exact ⟨entryMatches_extend h vn e hr.1, ih es' hr.2⟩

theorem entriesRel_getElem {st : InlinedNodeTree} {ns : List VNode}
    {es : List ScopeEntry} (h : EntriesRel st ns es) (n : Nat) :
    (ns[n]? = none ∧ es[n]? = none) ∨
    (∃ vn e, ns[n]? = some vn ∧ es[n]? = some e ∧ EntryMatches st vn e) := by
  induction ns generalizing es n with
  | nil =>
      cases es with
      | nil => exact Or.inl ⟨rfl, rfl⟩
      | cons _ _ => exact h.elim
  | cons vn rest ih =>
      cases es with
      | nil => exact h.elim
      | cons e es' =>
          cases n with
          | zero => exact Or.inr ⟨vn, e, by simp, by simp, h.1⟩
          | succ m =>
              rcases ih h.2 m with ⟨h1, h2⟩ | ⟨vn', e', h1, h2, h3⟩
              · exact Or.inl ⟨by simpa using h1, by simpa using h2⟩
              · exact Or.inr ⟨vn', e', by simpa using h1, by simpa using h2, h3⟩

/-- The created plain node of `create_node`, looked up at its fresh id. -/
theorem create_node_self_lookup (t : InlinedNodeTree) (vref : VNodeRef)
    (parent : Option Nat) (nIn nOut : Nat) :
    ∃ xn, (create_node t vref parent nIn nOut).1.node_by_id[(create_node t vref parent nIn nOut).2]? = some xn ∧
      xn.inputs.length = nIn ∧ xn.outputs.length = nOut := by
  rw [create_node_snd, create_node_nodes_ge t vref parent nIn nOut _ (Nat.le_refl _),
    if_pos rfl]
  exact ⟨_, rfl, by simp, by simp⟩

theorem entriesRel_expandNodes
    (expandSub : Nat → VirtualNodeTree → Option Nat → InlinedNodeTree →
      Except BuildError (InlinedNodeTree × List (Nat × Nat)))
    (hsub : ∀ tid tree p st st' bnd,
      expandSub tid tree p st = .ok (st', bnd) → NodesExtend st st')
    (vtrees : BTreeVTreeMap) (tid : Nat) (ns : List VNode) (idx : Nat)
    (parent : Option Nat) (st : InlinedNodeTree)
    (st' : InlinedNodeTree) (entries : List ScopeEntry)
    (hok : expandNodes expandSub vtrees tid ns idx parent st = .ok (st', entries)) :
    EntriesRel st' ns entries := by
  induction ns generalizing idx st entries with
  | nil =>
      simp only [expandNodes] at hok
      injection hok with hok
      injection hok with h1 h2
      rw [← h2]
      trivial
  | cons vn rest ih =>
      simp only [expandNodes] at hok
      cases hg : vn.groupTree with
      | none =>
          rw [hg] at hok
          simp only [] at hok
          cases hrest : expandNodes expandSub vtrees tid rest (idx + 1) parent
              (create_node st ⟨tid, idx⟩ parent vn.numInputs vn.numOutputs).1 with
          | error e =>
              rw [hrest, except_map_error] at hok
              cases hok
          | ok pr =>
              obtain ⟨prSt, prE⟩ := pr
              rw [hrest, except_map_ok] at hok
              injection hok with hok
              injection hok with h1 h2
              subst h1
              rw [← h2]
              constructor
              · unfold EntryMatches
                rw [hg]
                simp only []
                obtain ⟨xn, hxn, hi, ho⟩ :=
                  create_node_self_lookup st ⟨tid, idx⟩ parent vn.numInputs vn.numOutputs
                have hext : NodesExtend
                    (create_node st ⟨tid, idx⟩ parent vn.numInputs vn.numOutputs).1
                    prSt :=
                  nodesExtend_expandNodes expandSub hsub vtrees tid rest (idx + 1)
                    parent _ prSt prE hrest
                exact ⟨xn, hext _ xn hxn, hi, ho⟩
              · exact ih _ _ _ hrest
      | some subTid =>
          rw [hg] at hok
          simp only [] at hok
          cases hv : vtrees subTid with
          | none =>
              rw [hv] at hok
              simp only [] at hok
              cases hok
          | some subTree =>
              rw [hv] at hok
              simp only [] at hok
              cases hexp : expandSub subTid subTree
                  (some (create_parent_node st ⟨tid, idx⟩ parent).2)
                  (create_parent_node st ⟨tid, idx⟩ parent).1 with
              | error e =>
                  rw [hexp, except_bind_error] at hok
                  cases hok
              | ok pr =>
                  obtain ⟨subSt, subBnd⟩ := pr
                  rw [hexp, except_bind_ok] at hok
                  cases hrest : expandNodes expandSub vtrees tid rest (idx + 1)
                      parent subSt with
                  | error e =>
                      rw [hrest, except_map_error] at hok
                      cases hok
                  | ok pr2 =>
                      obtain ⟨pr2St, pr2E⟩ := pr2
                      rw [hrest, except_map_ok] at hok
                      injection hok with hok
                      injection hok with h1 h2
                      subst h1
                      rw [← h2]
                      constructor
                      · unfold EntryMatches
                        rw [hg]
                        simp only []
                      · exact ih _ _ _ hrest

/-- A link destination not present in the scope's index: the destination
node does not exist, or the input index is beyond its input count. -/
def dstMalformed (t : VirtualNodeTree) (n k : Nat) : Bool :=
  match t.nodes[n]? with
  | none => true
  | some vn => decide (vn.numInputs ≤ k)

/-- A link source not present in the scope's index: the source node does
not exist, is a group node (whose outputs are not materialized in the
index), or the output index is beyond its output count.  A boundary-input
source is never malformed. -/
def srcMalformed (t : VirtualNodeTree) (src : VLinkSrc) : Bool :=
  match src with
  | .boundaryInput _ => false
  | .nodeOutput a m =>
      match t.nodes[a]? with
      | none => true
      | some vn => vn.groupTree.isSome || decide (vn.numOutputs ≤ m)

/-- A malformed link: one of its endpoint sockets is not present in the
current scope's index. -/
def linkMalformed (t : VirtualNodeTree) (l : VLink) : Bool :=
  dstMalformed t l.dstNode l.dstSocket || srcMalformed t l.src

theorem resolveInput_err_of_malformed (tree : VirtualNodeTree)
    (entries : List ScopeEntry) (st : InlinedNodeTree) (n k : Nat)
    (hrel : EntriesRel st tree.nodes entries)
    (hbad : dstMalformed tree n k = true) :
    ∃ e, resolveInputSockets tree entries st n k = .error e := by
  rcases entriesRel_getElem hrel n with ⟨hn1, hn2⟩ | ⟨vn, en, hn1, hn2, hm⟩
  · unfold resolveInputSockets
    rw [hn1, hn2]
    exact ⟨_, rfl⟩
  · unfold dstMalformed at hbad
    rw [hn1] at hbad
    simp only [] at hbad
    have hk : vn.numInputs ≤ k := of_decide_eq_true hbad
    unfold resolveInputSockets
    rw [hn1, hn2]
    cases hg : vn.groupTree with
    | none =>
        cases en with
        | plainNode nid =>
            unfold EntryMatches at hm
            rw [hg] at hm
            simp only [] at hm
            obtain ⟨xn, hxn, hlen, _⟩ := hm
            simp only []
            rw [hxn]
            simp only []
            rw [List.getElem?_eq_none (by rw [hlen]; exact hk)]
            exact ⟨_, rfl⟩
        | groupNode _ _ =>
            unfold EntryMatches at hm
            rw [hg] at hm
            simp only [] at hm
    | some sub =>
        cases en with
        | plainNode _ =>
            unfold EntryMatches at hm
            rw [hg] at hm
            simp only [] at hm
        | groupNode pid bnd =>
            simp only []
            rw [if_neg (Nat.not_lt.mpr hk)]
            exact ⟨_, rfl⟩

theorem resolveOutput_err_of_malformed (tree : VirtualNodeTree)
    (entries : List ScopeEntry) (st : InlinedNodeTree) (a m : Nat)
    (hrel : EntriesRel st tree.nodes entries)
    (hbad : srcMalformed tree (.nodeOutput a m) = true) :
    ∃ e, resolveOutputSocket entries st a m = .error e := by
  rcases entriesRel_getElem hrel a with ⟨hn1, hn2⟩ | ⟨vn, en, hn1, hn2, hm⟩
  · unfold resolveOutputSocket
    rw [hn2]
    exact ⟨_, rfl⟩
  · unfold srcMalformed at hbad
    simp only [] at hbad
    rw [hn1] at hbad
    simp only [] at hbad
    cases hg : vn.groupTree with
    | none =>
        rw [hg] at hbad
        simp only [Option.isSome_none, Bool.false_or] at hbad
        have hmk : vn.numOutputs ≤ m := of_decide_eq_true hbad
        cases en with
        | plainNode nid =>
            unfold EntryMatches at hm
            rw [hg] at hm
            simp only [] at hm
            obtain ⟨xn, hxn, _, hlen⟩ := hm
            unfold resolveOutputSocket
            rw [hn2]
            simp only []
            rw [hxn]
            simp only []
            rw [List.getElem?_eq_none (by rw [hlen]; exact hmk)]
            exact ⟨_, rfl⟩
        | groupNode _ _ =>
            unfold EntryMatches at hm
            rw [hg] at hm
            simp only [] at hm
    | some sub =>
        cases en with
        | plainNode _ =>
            unfold EntryMatches at hm
            rw [hg] at hm
            simp only [] at hm
        | groupNode pid bnd =>
            unfold resolveOutputSocket
            rw [hn2]
            simp only []
            exact ⟨_, rfl⟩

theorem connect_fold_node_by_id (sids : List Nat) (o : Nat)
    (st : InlinedNodeTree) :
    (sids.foldl (fun s i => connect s o i) st).node_by_id = st.node_by_id := by
  induction sids generalizing st with
  | nil => rfl
  | cons a rest ih =>
      rw [List.foldl_cons, ih, connect_node_by_id]

theorem processLinks_err_of_malformed (tree : VirtualNodeTree)
    (entries : List ScopeEntry) (links : List VLink)
    (st : InlinedNodeTree) (bnd : List (Nat × Nat))
    (hrel : EntriesRel st tree.nodes entries)
    (hbad : ∃ l ∈ links, linkMalformed tree l = true) :
    ∀ pr, processLinks tree entries links (st, bnd) ≠ .ok pr := by
  induction links generalizing st bnd with
  | nil =>
      obtain ⟨l, hl, _⟩ := hbad
      exact absurd hl (List.not_mem_nil l)
  | cons l rest ih =>
      intro pr hok
      simp only [processLinks] at hok
      obtain ⟨l', hl', hbad'⟩ := hbad
      rcases List.mem_cons.mp hl' with he | hmem
      · subst he
        rw [linkMalformed, Bool.or_eq_true] at hbad'
        rcases hbad' with hd | hsrc
        · obtain ⟨e, he2⟩ := resolveInput_err_of_malformed tree entries st
            l'.dstNode l'.dstSocket hrel hd
          rw [he2, except_bind_error] at hok
          cases hok
        · cases hres : resolveInputSockets tree entries st l'.dstNode l'.dstSocket with
          | error e =>
              rw [hres, except_bind_error] at hok
              cases hok
          | ok sids =>
              rw [hres, except_bind_ok] at hok
              cases hsrckind : l'.src with
              | nodeOutput a m =>
                  rw [hsrckind] at hok
                  simp only [] at hok
                  rw [hsrckind] at hsrc
                  obtain ⟨e, he2⟩ := resolveOutput_err_of_malformed tree entries st
                    a m hrel hsrc
                  rw [he2, except_bind_error] at hok
                  cases hok
              | boundaryInput j =>
                  rw [hsrckind] at hsrc
                  simp [srcMalformed] at hsrc
      · cases hres : resolveInputSockets tree entries st l.dstNode l.dstSocket with
        | error e =>
            rw [hres, except_bind_error] at hok
            cases hok
        | ok sids =>
            rw [hres, except_bind_ok] at hok
            cases hsrckind : l.src with
            | nodeOutput a m =>
                rw [hsrckind] at hok
                simp only [] at hok
                cases hro : resolveOutputSocket entries st a m with
                | error e =>
                    rw [hro, except_bind_error] at hok
                    cases hok
                | ok o =>
                    rw [hro, except_bind_ok] at hok
                    have hrel' : EntriesRel
                        (sids.foldl (fun s i => connect s o i) st) tree.nodes entries :=
                      entriesRel_extend
                        (nodesExtend_of_eq (connect_fold_node_by_id sids o st))
                        tree.nodes entries hrel
                    exact ih _ _ hrel' ⟨l', hmem, hbad'⟩ pr hok
            | boundaryInput j =>
                rw [hsrckind] at hok
                simp only [] at hok
                exact ih _ _ hrel ⟨l', hmem, hbad'⟩ pr hok

theorem expandNodes_err_of_missing
    (expandSub : Nat → VirtualNodeTree → Option Nat → InlinedNodeTree →
      Except BuildError (InlinedNodeTree × List (Nat × Nat)))
    (vtrees : BTreeVTreeMap) (tid : Nat) :
    ∀ ns : List VNode,
      (∃ vn ∈ ns, ∃ t2, vn.groupTree = some t2 ∧ vtrees t2 = none) →
      ∀ idx parent st pr,
        expandNodes expandSub vtrees tid ns idx parent st ≠ .ok pr := by
  intro ns
  induction ns with
  | nil =>
      intro hbad
      obtain ⟨vn, hv, _⟩ := hbad
      exact absurd hv (List.not_mem_nil vn)
  | cons vn rest ih =>
      intro hbad idx parent st pr hok
      simp only [expandNodes] at hok
      obtain ⟨vn', hmem, t2, hgt, hv2⟩ := hbad
      rcases List.mem_cons.mp hmem with he | hmem'
      · subst he
        rw [hgt] at hok
        simp only [] at hok
        rw [hv2] at hok
        simp only [] at hok
        cases hok
      · cases hg : vn.groupTree with
        | none =>
            rw [hg] at hok
            simp only [] at hok
            cases hrest : expandNodes expandSub vtrees tid rest (idx + 1) parent
                (create_node st ⟨tid, idx⟩ parent vn.numInputs vn.numOutputs).1 with
            | error e =>
                rw [hrest, except_map_error] at hok
                cases hok
            | ok pr2 =>
                exact ih ⟨vn', hmem', t2, hgt, hv2⟩ _ _ _ _ hrest
        | some subTid =>
            rw [hg] at hok
            simp only [] at hok
            cases hv : vtrees subTid with
            | none =>
                rw [hv] at hok
                simp only [] at hok
                cases hok
            | some subTree =>
                rw [hv] at hok
                simp only [] at hok
                cases hexp : expandSub subTid subTree
                    (some (create_parent_node st ⟨tid, idx⟩ parent).2)
                    (create_parent_node st ⟨tid, idx⟩ parent).1 with
                | error e =>
                    rw [hexp, except_bind_error] at hok
                    cases hok
                | ok prSub =>
                    rw [hexp, except_bind_ok] at hok
                    cases hrest : expandNodes expandSub vtrees tid rest (idx + 1)
                        parent prSub.1 with
                    | error e =>
                        rw [hrest, except_map_error] at hok
                        cases hok
                    | ok pr2 =>
                        exact ih ⟨vn', hmem', t2, hgt, hv2⟩ _ _ _ _ hrest

/-- C7: construction is all-or-nothing — `build` returns either an error
or a complete graph, never a partial one (its codomain is
`Except BuildError InlinedNodeTree`) — and for every malformed input at
the root scope, i.e. a link whose endpoint socket is not present in the
scope's index (missing node, out-of-range socket, or a group-node output)
or a group node whose referenced sub-tree cannot be resolved in the
cache, the whole `build` call aborts: no graph is returned. -/
theorem C7_malformed_input_aborts (vtrees : BTreeVTreeMap) (rootId fuel : Nat)
    (t : VirtualNodeTree) (hroot : vtrees rootId = some t)
    (hbad : (∃ vn ∈ t.nodes, ∃ t2, vn.groupTree = some t2 ∧ vtrees t2 = none) ∨
            (∃ l ∈ t.links, linkMalformed t l = true)) :
    ∀ g : InlinedNodeTree, build vtrees rootId fuel ≠ .ok g := by
  intro g hok
  unfold build at hok
  rw [hroot] at hok
  simp only [] at hok
  cases fuel with
  | zero =>
      simp only [expandTree] at hok
      rw [except_map_error] at hok
      cases hok
  | succ fuel =>
      simp only [expandTree] at hok
      cases hn : expandNodes (expandTree vtrees fuel) vtrees rootId t.nodes 0
          none initialGraph with
      | error e =>
          rw [hn, except_bind_error, except_map_error] at hok
          cases hok
      | ok pr =>
          rcases hbad with hbadg | hbadl
          · exact expandNodes_err_of_missing (expandTree vtrees fuel) vtrees
              rootId t.nodes hbadg 0 none initialGraph pr hn
          · have hrel : EntriesRel pr.1 t.nodes pr.2 :=
              entriesRel_expandNodes (expandTree vtrees fuel)
                (nodesExtend_expandTree vtrees fuel) vtrees rootId t.nodes 0
                none initialGraph pr.1 pr.2 (by rw [← hn])
            cases hl : processLinks t pr.2 t.links (pr.1, []) with
            | error e =>
                rw [hn, except_bind_ok, hl, except_map_error, except_map_error] at hok
                cases hok
            | ok pr2 =>
                exact processLinks_err_of_malformed t pr.2 t.links pr.1 []
                  hrel hbadl pr2 hl

/-- A cache whose root tree holds one group node referencing the missing
tree identity 5. -/
def c7Cache : BTreeVTreeMap := fun tid =>
  match tid with
  | 0 => some ⟨[⟨some 5, 1, 0⟩], []⟩
  | _ => none

/-- Witness for C7: the unresolvable group reference aborts the build, so
it does not return the empty graph (nor any other). -/
theorem C7_malformed_input_aborts_witness :
    build c7Cache 0 10 ≠ Except.ok initialGraph :=
  C7_malformed_input_aborts c7Cache 0 10 ⟨[⟨some 5, 1, 0⟩], []⟩ rfl
    (Or.inl ⟨⟨some 5, 1, 0⟩, by decide, 5, rfl, rfl⟩) initialGraph

/-! ## Group-free flattening identity (C4) -/

/-- Socket count of one virtual node. -/
def nodeArity (vn : VNode) : Nat := vn.numInputs + vn.numOutputs

/-- Socket count of a node list. -/
def aritySum (ns : List VNode) : Nat := (ns.map nodeArity).sum

/-- Socket-id offset of node `n` of a group-free tree: total arity of the
nodes declared before it. -/
def socketOffset (t : VirtualNodeTree) (n : Nat) : Nat :=
  aritySum (t.nodes.take n)

/-- Number of inputs of node `n` (0 when out of range). -/
def numInputsAt (t : VirtualNodeTree) (n : Nat) : Nat :=
  match t.nodes[n]? with
  | some vn => vn.numInputs
  | none => 0

/-- The inlined id of input socket `k` of node `n` of a group-free tree. -/
def inSocketId (t : VirtualNodeTree) (n k : Nat) : Nat :=
  socketOffset t n + k

/-- The inlined id of output socket `m` of node `n` of a group-free tree. -/
def outSocketId (t : VirtualNodeTree) (n m : Nat) : Nat :=
  socketOffset t n + numInputsAt t n + m

/-- The inlined socket id a link source resolves to in a group-free tree. -/
def srcSocketId (t : VirtualNodeTree) (src : VLinkSrc) : Nat :=
  match src with
  | .nodeOutput a m => outSocketId t a m
  | .boundaryInput j => j

/-- Whether a link's source is output `m` of node `a`. -/
def srcIs (l : VLink) (a m : Nat) : Bool :=
  match l.src with
  | .nodeOutput a' m' => a' = a && m' = m
  | .boundaryInput _ => false

/-- The linked outputs that the link sublist contributes to input
`(n, k)`, in processing order. -/
def expectedInOn (t : VirtualNodeTree) (ls : List VLink) (n k : Nat) : List Nat :=
  (ls.filter (fun l => l.dstNode = n && l.dstSocket = k)).map
    (fun l => srcSocketId t l.src)

/-- The linked inputs that the link sublist contributes to output
`(a, m)`, in processing order. -/
def expectedOutOn (t : VirtualNodeTree) (ls : List VLink) (a m : Nat) : List Nat :=
  (ls.filter (fun l => srcIs l a m)).map
    (fun l => inSocketId t l.dstNode l.dstSocket)

/-- The node walk specialized to a group-free node list. -/
def plainWalk (tid : Nat) : List VNode → Nat → Option Nat → InlinedNodeTree →
    InlinedNodeTree × List ScopeEntry
  | [], _, _, st => (st, [])
  | vn :: rest, idx, parent, st =>
      let p := create_node st ⟨tid, idx⟩ parent vn.numInputs vn.numOutputs
      let pr := plainWalk tid rest (idx + 1) parent p.1
      (pr.1, .plainNode p.2 :: pr.2)

theorem expandNodes_plain
    (expandSub : Nat → VirtualNodeTree → Option Nat → InlinedNodeTree →
      Except BuildError (InlinedNodeTree × List (Nat × Nat)))
    (vtrees : BTreeVTreeMap) (tid : Nat) (ns : List VNode)
    (hplain : ∀ vn ∈ ns, vn.groupTree = none) :
    ∀ idx parent st,
      expandNodes expandSub vtrees tid ns idx parent st =
        .ok (plainWalk tid ns idx parent st) := by
  induction ns with
  | nil =>
      intro idx parent st
      simp only [expandNodes, plainWalk]
  | cons vn rest ih =>
      intro idx parent st
      have hvn : vn.groupTree = none := hplain vn (List.mem_cons_self vn rest)
      have hrest : ∀ v ∈ rest, v.groupTree = none :=
        fun v hv => hplain v (List.mem_cons_of_mem vn hv)
      simp only [expandNodes, plainWalk, hvn]
      rw [ih hrest]
      rfl

theorem plainWalk_nodes_length (tid : Nat) (ns : List VNode) :
    ∀ idx parent st, (plainWalk tid ns idx parent st).1.node_by_id.length =
      st.node_by_id.length + ns.length := by
  induction ns with
  | nil =>
      intro idx parent st
      simp [plainWalk]
  | cons vn rest ih =>
      intro idx parent st
      simp only [plainWalk]
      rw [ih]
      rw [create_node_nodes_length]
      simp
      omega

theorem plainWalk_sockets_length (tid : Nat) (ns : List VNode) :
    ∀ idx parent st, (plainWalk tid ns idx parent st).1.sockets_by_id.length =
      st.sockets_by_id.length + aritySum ns := by
  induction ns with
  | nil =>
      intro idx parent st
      simp [plainWalk, aritySum]
  | cons vn rest ih =>
      intro idx parent st
      simp only [plainWalk]
      rw [ih, create_node_sockets_length]
      simp [aritySum, nodeArity]
      omega

theorem plainWalk_parent_nodes (tid : Nat) (ns : List VNode) :
    ∀ idx parent st, (plainWalk tid ns idx parent st).1.parent_nodes =
      st.parent_nodes := by
  induction ns with
  | nil =>
      intro idx parent st
      rfl
  | cons vn rest ih =>
      intro idx parent st
      simp only [plainWalk]
      rw [ih, create_node_parent_nodes]

theorem plainWalk_group_inputs (tid : Nat) (ns : List VNode) :
    ∀ idx parent st, (plainWalk tid ns idx parent st).1.group_inputs =
      st.group_inputs := by
  induction ns with
  | nil =>
      intro idx parent st
      rfl
  | cons vn rest ih =>
      intro idx parent st
      simp only [plainWalk]
      rw [ih, create_node_group_inputs]

theorem plainWalk_entries (tid : Nat) (ns : List VNode) :
    ∀ idx parent st, (plainWalk tid ns idx parent st).2 =
      (List.range ns.length).map
        (fun j => ScopeEntry.plainNode (st.node_by_id.length + j)) := by
  induction ns with
  | nil =>
      intro idx parent st
      rfl
  | cons vn rest ih =>
      intro idx parent st
      simp only [plainWalk, List.length_cons]
      rw [ih, List.range_succ_eq_map]
      simp only [List.map_cons, List.map_map, create_node_snd,
        create_node_nodes_length]
      congr 1
      apply List.map_congr_left
      intro a _
      show ScopeEntry.plainNode (st.node_by_id.length + 1 + a) =
        ScopeEntry.plainNode (st.node_by_id.length + (a + 1))
      congr 1
      omega

theorem plainWalk_nodes_lt (tid : Nat) (ns : List VNode) :
    ∀ idx parent st j, j < st.node_by_id.length →
      (plainWalk tid ns idx parent st).1.node_by_id[j]? = st.node_by_id[j]? := by
  induction ns with
  | nil =>
      intro idx parent st j hj
      rfl
  | cons vn rest ih =>
      intro idx parent st j hj
      simp only [plainWalk]
      rw [ih _ _ _ j (by rw [create_node_nodes_length]; omega)]
      exact create_node_nodes_lt st ⟨tid, idx⟩ parent vn.numInputs vn.numOutputs j hj

theorem plainWalk_sockets_lt (tid : Nat) (ns : List VNode) :
    ∀ idx parent st j, j < st.sockets_by_id.length →
      (plainWalk tid ns idx parent st).1.sockets_by_id[j]? =
        st.sockets_by_id[j]? := by
  induction ns with
  | nil =>
      intro idx parent st j hj
      rfl
  | cons vn rest ih =>
      intro idx parent st j hj
      simp only [plainWalk]
      rw [ih _ _ _ j (by rw [create_node_sockets_length]; omega)]
      exact create_node_sockets_lt st ⟨tid, idx⟩ parent vn.numInputs vn.numOutputs j hj

theorem plainWalk_node_at (tid : Nat) (ns : List VNode) :
    ∀ idx parent st j vn, ns[j]? = some vn →
      (plainWalk tid ns idx parent st).1.node_by_id[st.node_by_id.length + j]? =
        some ⟨⟨tid, idx + j⟩, parent, st.node_by_id.length + j,
          (List.range vn.numInputs).map
            (fun k => st.sockets_by_id.length + aritySum (ns.take j) + k),
          (List.range vn.numOutputs).map
            (fun k => st.sockets_by_id.length + aritySum (ns.take j) +
              vn.numInputs + k)⟩ := by
  induction ns with
  | nil =>
      intro idx parent st j vn h
      simp at h
  | cons vn0 rest ih =>
      intro idx parent st j vn h
      cases j with
      | zero =>
          have hv : vn0 = vn := by simpa using h
          subst hv
          have eb : st.sockets_by_id.length + aritySum ((vn0 :: rest).take 0) =
              st.sockets_by_id.length := by
            simp [aritySum]
          rw [eb, Nat.add_zero, Nat.add_zero]
          simp only [plainWalk]
          rw [plainWalk_nodes_lt tid rest (idx + 1) parent _ _
            (by rw [create_node_nodes_length]; omega)]
          rw [create_node_nodes_ge st ⟨tid, idx⟩ parent vn0.numInputs
            vn0.numOutputs _ (Nat.le_refl _), if_pos rfl]
      | succ j' =>
          have h' : rest[j']? = some vn := by simpa using h
          simp only [plainWalk]
          have e1 : st.sockets_by_id.length + aritySum ((vn0 :: rest).take (j' + 1)) =
              (create_node st ⟨tid, idx⟩ parent vn0.numInputs vn0.numOutputs).1.sockets_by_id.length +
                aritySum (rest.take j') := by
            rw [create_node_sockets_length]
            simp only [List.take_succ_cons, aritySum, List.map_cons, List.sum_cons,
              nodeArity]
            omega
          have e2 : st.node_by_id.length + (j' + 1) =
              (create_node st ⟨tid, idx⟩ parent vn0.numInputs vn0.numOutputs).1.node_by_id.length +
                j' := by
            rw [create_node_nodes_length]
            omega
          have e3 : idx + (j' + 1) = idx + 1 + j' := by omega
          rw [e1, e2, e3]
          exact ih (idx + 1) parent _ j' vn h'

theorem plainWalk_socket_in (tid : Nat) (ns : List VNode) :
    ∀ idx parent st j vn k, ns[j]? = some vn → k < vn.numInputs →
      (plainWalk tid ns idx parent st).1.sockets_by_id[st.sockets_by_id.length + aritySum (ns.take j) + k]? =
        some (XSocket.input (st.node_by_id.length + j)
          (st.sockets_by_id.length + aritySum (ns.take j) + k)
          ⟨tid, idx + j, k⟩ [] []) := by
  induction ns with
  | nil =>
      intro idx parent st j vn k h hk
      simp at h
  | cons vn0 rest ih =>
      intro idx parent st j vn k h hk
      cases j with
      | zero =>
          have hv : vn0 = vn := by simpa using h
          subst hv
          have eb : st.sockets_by_id.length + aritySum ((vn0 :: rest).take 0) =
              st.sockets_by_id.length := by
            simp [aritySum]
          rw [eb, Nat.add_zero]
          simp only [plainWalk]
          rw [plainWalk_sockets_lt tid rest (idx + 1) parent _ _
            (by rw [create_node_sockets_length]; omega)]
          exact create_node_socket_at_input st ⟨tid, idx⟩ parent vn0.numInputs
            vn0.numOutputs k hk
      | succ j' =>
          have h' : rest[j']? = some vn := by simpa using h
          simp only [plainWalk]
          have e1 : st.sockets_by_id.length + aritySum ((vn0 :: rest).take (j' + 1)) =
              (create_node st ⟨tid, idx⟩ parent vn0.numInputs vn0.numOutputs).1.sockets_by_id.length +
                aritySum (rest.take j') := by
            rw [create_node_sockets_length]
            simp only [List.take_succ_cons, aritySum, List.map_cons, List.sum_cons,
              nodeArity]
            omega
          have e2 : st.node_by_id.length + (j' + 1) =
              (create_node st ⟨tid, idx⟩ parent vn0.numInputs vn0.numOutputs).1.node_by_id.length +
                j' := by
            rw [create_node_nodes_length]
            omega
          have e3 : idx + (j' + 1) = idx + 1 + j' := by omega
          rw [e1, e2, e3]
          exact ih (idx + 1) parent _ j' vn k h' hk

theorem plainWalk_socket_out (tid : Nat) (ns : List VNode) :
    ∀ idx parent st j vn m, ns[j]? = some vn → m < vn.numOutputs →
      (plainWalk tid ns idx parent st).1.sockets_by_id[st.sockets_by_id.length + aritySum (ns.take j) + vn.numInputs + m]? =
        some (XSocket.output (st.node_by_id.length + j)
          (st.sockets_by_id.length + aritySum (ns.take j) + vn.numInputs + m)
          ⟨tid, idx + j, m⟩ []) := by
  induction ns with
  | nil =>
      intro idx parent st j vn m h hm
      simp at h
  | cons vn0 rest ih =>
      intro idx parent st j vn m h hm
      cases j with
      | zero =>
          have hv : vn0 = vn := by simpa using h
          subst hv
          have eb : st.sockets_by_id.length + aritySum ((vn0 :: rest).take 0) =
              st.sockets_by_id.length := by
            simp [aritySum]
          rw [eb, Nat.add_zero]
          simp only [plainWalk]
          rw [plainWalk_sockets_lt tid rest (idx + 1) parent _ _
            (by rw [create_node_sockets_length]; omega)]
          exact create_node_socket_at_output st ⟨tid, idx⟩ parent vn0.numInputs
            vn0.numOutputs m hm
      | succ j' =>
          have h' : rest[j']? = some vn := by simpa using h
          simp only [plainWalk]
          have e1 : st.sockets_by_id.length + aritySum ((vn0 :: rest).take (j' + 1)) =
              (create_node st ⟨tid, idx⟩ parent vn0.numInputs vn0.numOutputs).1.sockets_by_id.length +
                aritySum (rest.take j') := by
            rw [create_node_sockets_length]
            simp only [List.take_succ_cons, aritySum, List.map_cons, List.sum_cons,
              nodeArity]
            omega
          have e2 : st.node_by_id.length + (j' + 1) =
              (create_node st ⟨tid, idx⟩ parent vn0.numInputs vn0.numOutputs).1.node_by_id.length +
                j' := by
            rw [create_node_nodes_length]
            omega
          have e3 : idx + (j' + 1) = idx + 1 + j' := by omega
          rw [e1, e2, e3]
          exact ih (idx + 1) parent _ j' vn m h' hm

theorem socketOffset_succ_of_some (t : VirtualNodeTree) (n : Nat) (vn : VNode)
    (h : t.nodes[n]? = some vn) :
    socketOffset t (n + 1) = socketOffset t n + nodeArity vn := by
  unfold socketOffset
  rw [List.take_succ, h]
  simp [aritySum]

theorem socketOffset_le_succ (t : VirtualNodeTree) (n : Nat) :
    socketOffset t n ≤ socketOffset t (n + 1) := by
  unfold socketOffset
  rw [List.take_succ]
  cases t.nodes[n]? with
  | none => simp [aritySum]
  | some vn => simp [aritySum]

theorem socketOffset_mono (t : VirtualNodeTree) {n n' : Nat} (h : n ≤ n') :
    socketOffset t n ≤ socketOffset t n' := by
  induction n' with
  | zero =>
      have e : n = 0 := Nat.le_zero.mp h
      rw [e]
  | succ m ih =>
      rcases Nat.lt_or_ge n (m + 1) with h1 | h1
      · exact Nat.le_trans (ih (by omega)) (socketOffset_le_succ t m)
      · have e : n = m + 1 := by omega
        rw [e]

theorem numInputsAt_of_some (t : VirtualNodeTree) (n : Nat) (vn : VNode)
    (h : t.nodes[n]? = some vn) : numInputsAt t n = vn.numInputs := by
  unfold numInputsAt
  rw [h]

theorem inSocketId_inj (t : VirtualNodeTree) {n k n' k' : Nat} {vn vn' : VNode}
    (h : t.nodes[n]? = some vn) (hk : k < vn.numInputs)
    (h' : t.nodes[n']? = some vn') (hk' : k' < vn'.numInputs)
    (heq : inSocketId t n k = inSocketId t n' k') : n = n' ∧ k = k' := by
  rcases Nat.lt_trichotomy n n' with hlt | he | hgt
  · exfalso
    have s1 := socketOffset_succ_of_some t n vn h
    have s2 := socketOffset_mono t (show n + 1 ≤ n' by omega)
    unfold inSocketId at heq
    unfold nodeArity at s1
    omega
  · subst he
    unfold inSocketId at heq
    exact ⟨rfl, by omega⟩
  · exfalso
    have s1 := socketOffset_succ_of_some t n' vn' h'
    have s2 := socketOffset_mono t (show n' + 1 ≤ n by omega)
    unfold inSocketId at heq
    unfold nodeArity at s1
    omega

theorem outSocketId_inj (t : VirtualNodeTree) {a m a' m' : Nat} {vn vn' : VNode}
    (h : t.nodes[a]? = some vn) (hm : m < vn.numOutputs)
    (h' : t.nodes[a']? = some vn') (hm' : m' < vn'.numOutputs)
    (heq : outSocketId t a m = outSocketId t a' m') : a = a' ∧ m = m' := by
  rcases Nat.lt_trichotomy a a' with hlt | he | hgt
  · exfalso
    have s1 := socketOffset_succ_of_some t a vn h
    have s2 := socketOffset_mono t (show a + 1 ≤ a' by omega)
    have e1 := numInputsAt_of_some t a vn h
    unfold outSocketId at heq
    unfold nodeArity at s1
    rw [e1] at heq
    have e2 : socketOffset t a' ≤ socketOffset t a' + numInputsAt t a' :=
      Nat.le_add_right _ _
    omega
  · subst he
    unfold outSocketId at heq
    exact ⟨rfl, by omega⟩
  · exfalso
    have s1 := socketOffset_succ_of_some t a' vn' h'
    have s2 := socketOffset_mono t (show a' + 1 ≤ a by omega)
    have e1 := numInputsAt_of_some t a' vn' h'
    unfold outSocketId at heq
    unfold nodeArity at s1
    rw [e1] at heq
    have e2 : socketOffset t a ≤ socketOffset t a + numInputsAt t a :=
      Nat.le_add_right _ _
    omega

theorem inSocketId_ne_outSocketId (t : VirtualNodeTree) {n k a m : Nat}
    {vn vna : VNode}
    (h : t.nodes[n]? = some vn) (hk : k < vn.numInputs)
    (ha : t.nodes[a]? = some vna) (hm : m < vna.numOutputs) :
    inSocketId t n k ≠ outSocketId t a m := by
  intro heq
  rcases Nat.lt_trichotomy n a with hlt | he | hgt
  · have s1 := socketOffset_succ_of_some t n vn h
    have s2 := socketOffset_mono t (show n + 1 ≤ a by omega)
    unfold inSocketId outSocketId at heq
    unfold nodeArity at s1
    have e2 : socketOffset t a ≤ socketOffset t a + numInputsAt t a :=
      Nat.le_add_right _ _
    omega
  · subst he
    have e1 := numInputsAt_of_some t n vn h
    unfold inSocketId outSocketId at heq
    rw [e1] at heq
    omega
  · have s1 := socketOffset_succ_of_some t a vna ha
    have s2 := socketOffset_mono t (show a + 1 ≤ n by omega)
    have e1 := numInputsAt_of_some t a vna ha
    unfold inSocketId outSocketId at heq
    unfold nodeArity at s1
    rw [e1] at heq
    omega

/-- The scope entries of a group-free tree, as produced by the walk. -/
def entriesFor (t : VirtualNodeTree) : List ScopeEntry :=
  (List.range t.nodes.length).map (fun j => ScopeEntry.plainNode j)

/-- After the walk from the empty graph: node `n` is materialized at id
`n` with the expected ordered socket-id lists. -/
def PlainNodeFacts (t : VirtualNodeTree) (st : InlinedNodeTree) : Prop :=
  ∀ n vn, t.nodes[n]? = some vn →
    ∃ xn, st.node_by_id[n]? = some xn ∧
      xn.inputs = (List.range vn.numInputs).map (fun k => inSocketId t n k) ∧
      xn.outputs = (List.range vn.numOutputs).map (fun m => outSocketId t n m)

/-- The expected socket positions hold sockets of the expected kind. -/
def PlainSocketFacts (t : VirtualNodeTree) (st : InlinedNodeTree) : Prop :=
  (∀ n vn k, t.nodes[n]? = some vn → k < vn.numInputs →
    isInputAt st (inSocketId t n k) = true) ∧
  (∀ a vn m, t.nodes[a]? = some vn → m < vn.numOutputs →
    isOutputAt st (outSocketId t a m) = true)

theorem entriesFor_getElem (t : VirtualNodeTree) (n : Nat) :
    (entriesFor t)[n]? =
      if n < t.nodes.length then some (ScopeEntry.plainNode n) else none := by
  unfold entriesFor
  rw [getElem?_map_range]

theorem resolveInput_plain (t : VirtualNodeTree) (st : InlinedNodeTree)
    (n k : Nat) (sids : List Nat) (hnf : PlainNodeFacts t st)
    (hok : resolveInputSockets t (entriesFor t) st n k = .ok sids) :
    ∃ vn, t.nodes[n]? = some vn ∧ k < vn.numInputs ∧
      sids = [inSocketId t n k] := by
  cases hn : t.nodes[n]? with
  | none =>
      have hlen : t.nodes.length ≤ n := by
        rcases Nat.lt_or_ge n t.nodes.length with h1 | h1
        · rw [List.getElem?_eq_getElem h1] at hn
          cases hn
        · exact h1
      unfold resolveInputSockets at hok
      rw [hn, entriesFor_getElem, if_neg (by omega)] at hok
      simp only [] at hok
      cases hok
  | some vn =>
      have hlt : n < t.nodes.length := (List.getElem?_eq_some.mp hn).1
      obtain ⟨xn, hxn, hins, houts⟩ := hnf n vn hn
      unfold resolveInputSockets at hok
      rw [hn, entriesFor_getElem, if_pos hlt] at hok
      simp only [] at hok
      rw [hxn] at hok
      simp only [] at hok
      rw [hins, getElem?_map_range] at hok
      by_cases hk : k < vn.numInputs
      · rw [if_pos hk] at hok
        injection hok with hok
        exact ⟨vn, rfl, hk, hok.symm⟩
      · rw [if_neg hk] at hok
        cases hok

theorem resolveOutput_plain (t : VirtualNodeTree) (st : InlinedNodeTree)
    (a m o : Nat) (hnf : PlainNodeFacts t st)
    (hok : resolveOutputSocket (entriesFor t) st a m = .ok o) :
    ∃ vn, t.nodes[a]? = some vn ∧ m < vn.numOutputs ∧
      o = outSocketId t a m := by
  by_cases hlt : a < t.nodes.length
  · have hn : ∃ vn, t.nodes[a]? = some vn :=
      ⟨t.nodes.get ⟨a, hlt⟩, List.getElem?_eq_getElem hlt⟩
    obtain ⟨vn, hn⟩ := hn
    obtain ⟨xn, hxn, hins, houts⟩ := hnf a vn hn
    unfold resolveOutputSocket at hok
    rw [entriesFor_getElem, if_pos hlt] at hok
    simp only [] at hok
    rw [hxn] at hok
    simp only [] at hok
    rw [houts, getElem?_map_range] at hok
    by_cases hm : m < vn.numOutputs
    · rw [if_pos hm] at hok
      injection hok with hok
      exact ⟨vn, hn, hm, hok.symm⟩
    · rw [if_neg hm] at hok
      cases hok
  · unfold resolveOutputSocket at hok
    rw [entriesFor_getElem, if_neg hlt] at hok
    simp only [] at hok
    cases hok

theorem connect_sockets_at_o (t : InlinedNodeTree) (o i : Nat)
    (h : (isOutputAt t o && isInputAt t i) = true) :
    (connect t o i).sockets_by_id[o]? =
      (t.sockets_by_id[o]?).map (fun s => s.withLinkedInput i) := by
  have hne := connect_guard_ne t o i h
  rw [connect_sockets_of_guard t o i h,
    getElem?_updateAt_ne _ _ _ _ hne, getElem?_updateAt_self]

theorem connect_sockets_at_i (t : InlinedNodeTree) (o i : Nat)
    (h : (isOutputAt t o && isInputAt t i) = true) :
    (connect t o i).sockets_by_id[i]? =
      (t.sockets_by_id[i]?).map (fun s => s.withLinkedOutput o) := by
  have hne := connect_guard_ne t o i h
  rw [connect_sockets_of_guard t o i h, getElem?_updateAt_self,
    getElem?_updateAt_ne _ _ _ _ (Ne.symm hne)]

theorem connect_sockets_other (t : InlinedNodeTree) (o i x : Nat)
    (hxo : x ≠ o) (hxi : x ≠ i) :
    (connect t o i).sockets_by_id[x]? = t.sockets_by_id[x]? := by
  by_cases h : (isOutputAt t o && isInputAt t i) = true
  · rw [connect_sockets_of_guard t o i h,
      getElem?_updateAt_ne _ _ _ _ hxi, getElem?_updateAt_ne _ _ _ _ hxo]
  · rw [connect_guard_false t o i (by simpa using h)]

theorem expectedInOn_cons_hit (t : VirtualNodeTree) (l : VLink)
    (rest : List VLink) (n k : Nat) (h1 : l.dstNode = n) (h2 : l.dstSocket = k) :
    expectedInOn t (l :: rest) n k =
      srcSocketId t l.src :: expectedInOn t rest n k := by
  unfold expectedInOn
  rw [List.filter_cons, if_pos (by simp [h1, h2])]
  rfl

theorem expectedInOn_cons_miss (t : VirtualNodeTree) (l : VLink)
    (rest : List VLink) (n k : Nat) (h : ¬(l.dstNode = n ∧ l.dstSocket = k)) :
    expectedInOn t (l :: rest) n k = expectedInOn t rest n k := by
  unfold expectedInOn
  rw [List.filter_cons, if_neg (by simpa using h)]

theorem expectedOutOn_cons_hit (t : VirtualNodeTree) (l : VLink)
    (rest : List VLink) (a m : Nat) (h : srcIs l a m = true) :
    expectedOutOn t (l :: rest) a m =
      inSocketId t l.dstNode l.dstSocket :: expectedOutOn t rest a m := by
  unfold expectedOutOn
  rw [List.filter_cons, if_pos h]
  rfl

theorem expectedOutOn_cons_miss (t : VirtualNodeTree) (l : VLink)
    (rest : List VLink) (a m : Nat) (h : ¬srcIs l a m = true) :
    expectedOutOn t (l :: rest) a m = expectedOutOn t rest a m := by
  unfold expectedOutOn
  rw [List.filter_cons, if_neg h]

@[simp] theorem linkedGroupInputs_withLinkedInput (s : XSocket) (i : Nat) :
    (s.withLinkedInput i).linkedGroupInputs = s.linkedGroupInputs := by
  cases s <;> rfl

@[simp] theorem linkedGroupInputs_withLinkedOutput (s : XSocket) (o : Nat) :
    (s.withLinkedOutput o).linkedGroupInputs = s.linkedGroupInputs := by
  cases s <;> rfl

theorem linkedSockets_withLinkedOutput_input (s : XSocket) (o : Nat)
    (h : s.isInput = true) :
    (s.withLinkedOutput o).linkedSockets = s.linkedSockets ++ [o] := by
  cases s with
  | input _ _ _ _ _ => rfl
  | output _ _ _ _ => simp [XSocket.isInput] at h

theorem linkedSockets_withLinkedInput_output (s : XSocket) (i : Nat)
    (h : s.isOutput = true) :
    (s.withLinkedInput i).linkedSockets = s.linkedSockets ++ [i] := by
  cases s with
  | input _ _ _ _ _ => simp [XSocket.isOutput] at h
  | output _ _ _ _ => rfl

theorem plainNodeFacts_congr (t : VirtualNodeTree) {st st' : InlinedNodeTree}
    (h : st'.node_by_id = st.node_by_id) (hnf : PlainNodeFacts t st) :
    PlainNodeFacts t st' := by
  intro n vn hn
  obtain ⟨xn, hxn, h1, h2⟩ := hnf n vn hn
  exact ⟨xn, by rw [h]; exact hxn, h1, h2⟩

theorem isInputAt_of_obs {st st' : InlinedNodeTree} (x : Nat)
    (h : socketIsInput? st' x = socketIsInput? st x) :
    isInputAt st' x = isInputAt st x := by
  unfold socketIsInput? at h
  unfold isInputAt
  cases h1 : st'.sockets_by_id[x]? with
  | none =>
      rw [h1] at h
      cases h2 : st.sockets_by_id[x]? with
      | none => rfl
      | some s =>
          rw [h2] at h
          simp at h
  | some s' =>
      rw [h1] at h
      cases h2 : st.sockets_by_id[x]? with
      | none =>
          rw [h2] at h
          simp at h
      | some s =>
          rw [h2] at h
          simp at h
          simp [h]

theorem isOutputAt_of_obs {st st' : InlinedNodeTree} (x : Nat)
    (h : socketIsOutput? st' x = socketIsOutput? st x) :
    isOutputAt st' x = isOutputAt st x := by
  unfold socketIsOutput? at h
  unfold isOutputAt
  cases h1 : st'.sockets_by_id[x]? with
  | none =>
      rw [h1] at h
      cases h2 : st.sockets_by_id[x]? with
      | none => rfl
      | some s =>
          rw [h2] at h
          simp at h
  | some s' =>
      rw [h1] at h
      cases h2 : st.sockets_by_id[x]? with
      | none =>
          rw [h2] at h
          simp at h
      | some s =>
          rw [h2] at h
          simp at h
          simp [h]

theorem isInputAt_connect (t : InlinedNodeTree) (o i x : Nat) :
    isInputAt (connect t o i) x = isInputAt t x :=
  isInputAt_of_obs x
    (obs_connect t o i x XSocket.isInput isInput_withLinkedInput
      isInput_withLinkedOutput)

theorem isOutputAt_connect (t : InlinedNodeTree) (o i x : Nat) :
    isOutputAt (connect t o i) x = isOutputAt t x :=
  isOutputAt_of_obs x
    (obs_connect t o i x XSocket.isOutput isOutput_withLinkedInput
      isOutput_withLinkedOutput)

theorem plainSocketFacts_connect (t : VirtualNodeTree) {st : InlinedNodeTree}
    (o i : Nat) (hkf : PlainSocketFacts t st) :
    PlainSocketFacts t (connect st o i) := by
  constructor
  · intro n vn k hn hk
    rw [isInputAt_connect]
    exact hkf.1 n vn k hn hk
  · intro a vn m ha hm
    rw [isOutputAt_connect]
    exact hkf.2 a vn m ha hm

theorem processLinks_plain_charact (t : VirtualNodeTree) :
    ∀ (links : List VLink) (st : InlinedNodeTree) (bnd : List (Nat × Nat))
      (pr : InlinedNodeTree × List (Nat × Nat)),
      processLinks t (entriesFor t) links (st, bnd) = .ok pr →
      (∀ l ∈ links, ∃ a m, l.src = VLinkSrc.nodeOutput a m) →
      PlainNodeFacts t st →
      PlainSocketFacts t st →
      pr.1.node_by_id = st.node_by_id ∧
      pr.1.parent_nodes = st.parent_nodes ∧
      pr.1.group_inputs = st.group_inputs ∧
      pr.1.sockets_by_id.length = st.sockets_by_id.length ∧
      (∀ n vn k, t.nodes[n]? = some vn → k < vn.numInputs →
        ∃ s0 s, st.sockets_by_id[inSocketId t n k]? = some s0 ∧
          pr.1.sockets_by_id[inSocketId t n k]? = some s ∧
          s.isInput = true ∧
          s.node = s0.node ∧ s.id = s0.id ∧ s.vsocket = s0.vsocket ∧
          s.linkedGroupInputs = s0.linkedGroupInputs ∧
          s.linkedSockets = s0.linkedSockets ++ expectedInOn t links n k) ∧
      (∀ a vn m, t.nodes[a]? = some vn → m < vn.numOutputs →
        ∃ s0 s, st.sockets_by_id[outSocketId t a m]? = some s0 ∧
          pr.1.sockets_by_id[outSocketId t a m]? = some s ∧
          s.isOutput = true ∧
          s.node = s0.node ∧ s.id = s0.id ∧ s.vsocket = s0.vsocket ∧
          s.linkedSockets = s0.linkedSockets ++ expectedOutOn t links a m) := by
  intro links
  induction links with
  | nil =>
      intro st bnd pr hok hsrc hnf hkf
      simp only [processLinks] at hok
      injection hok with hok
      subst hok
      refine ⟨rfl, rfl, rfl, rfl, ?_, ?_⟩
      · intro n vn k hn hk
        obtain ⟨s0, hs0, hs0k⟩ :=
          (isInputAt_iff st (inSocketId t n k)).mp (hkf.1 n vn k hn hk)
        refine ⟨s0, s0, hs0, hs0, hs0k, rfl, rfl, rfl, rfl, ?_⟩
        unfold expectedInOn
        simp
      · intro a vn m ha hm
        obtain ⟨s0, hs0, hs0k⟩ :=
          (isOutputAt_iff st (outSocketId t a m)).mp (hkf.2 a vn m ha hm)
        refine ⟨s0, s0, hs0, hs0, hs0k, rfl, rfl, rfl, ?_⟩
        unfold expectedOutOn
        simp
  | cons l rest ih =>
      intro st bnd pr hok hsrc hnf hkf
      simp only [processLinks] at hok
      obtain ⟨a, m, hlsrc⟩ := hsrc l (List.mem_cons_self l rest)
      cases hres : resolveInputSockets t (entriesFor t) st l.dstNode l.dstSocket with
      | error e =>
          rw [hres, except_bind_error] at hok
          cases hok
      | ok sids =>
          rw [hres, except_bind_ok, hlsrc] at hok
          simp only [] at hok
          cases hro : resolveOutputSocket (entriesFor t) st a m with
          | error e =>
              rw [hro, except_bind_error] at hok
              cases hok
          | ok o =>
              rw [hro, except_bind_ok] at hok
              obtain ⟨vnD, hnD, hkD, hsids⟩ :=
                resolveInput_plain t st l.dstNode l.dstSocket sids hnf hres
              obtain ⟨vnS, hnS, hmS, ho⟩ :=
                resolveOutput_plain t st a m o hnf hro
              subst hsids
              subst ho
              simp only [List.foldl_cons, List.foldl_nil] at hok
              have hguard : (isOutputAt st (outSocketId t a m) &&
                  isInputAt st (inSocketId t l.dstNode l.dstSocket)) = true := by
                rw [Bool.and_eq_true]
                exact ⟨hkf.2 a vnS m hnS hmS, hkf.1 l.dstNode vnD l.dstSocket hnD hkD⟩
              have hnb : (connect st (outSocketId t a m)
                  (inSocketId t l.dstNode l.dstSocket)).node_by_id = st.node_by_id :=
                connect_node_by_id st _ _
              have hnf1 : PlainNodeFacts t (connect st (outSocketId t a m)
                  (inSocketId t l.dstNode l.dstSocket)) :=
                plainNodeFacts_congr t hnb hnf
              have hkf1 : PlainSocketFacts t (connect st (outSocketId t a m)
                  (inSocketId t l.dstNode l.dstSocket)) :=
                plainSocketFacts_connect t _ _ hkf
              have hsrc' : ∀ l' ∈ rest, ∃ a' m', l'.src = VLinkSrc.nodeOutput a' m' :=
                fun l' hl' => hsrc l' (List.mem_cons_of_mem l hl')
              obtain ⟨c1, c2, c3, c4, cIn, cOut⟩ := ih _ _ _ hok hsrc' hnf1 hkf1
              refine ⟨?_, ?_, ?_, ?_, ?_, ?_⟩
              · rw [c1, hnb]
              · rw [c2, connect_parent_nodes]
              · rw [c3, connect_group_inputs]
              · rw [c4, connect_sockets_length]
              · intro n vn k hn hk
                obtain ⟨s1, s, hs1, hs, f1, f2, f3, f4, f5, f6⟩ := cIn n vn k hn hk
                by_cases hhit : l.dstNode = n ∧ l.dstSocket = k
                · obtain ⟨hh1, hh2⟩ := hhit
                  subst hh1
                  subst hh2
                  obtain ⟨s0, hs0, hs0k⟩ :=
                    (isInputAt_iff st (inSocketId t l.dstNode l.dstSocket)).mp
                      (hkf.1 l.dstNode vnD l.dstSocket hnD hkD)
                  have hcs := connect_sockets_at_i st (outSocketId t a m)
                    (inSocketId t l.dstNode l.dstSocket) hguard
                  rw [hs0] at hcs
                  rw [hcs] at hs1
                  injection hs1 with hs1
                  refine ⟨s0, s, hs0, hs, f1, ?_, ?_, ?_, ?_, ?_⟩
                  · rw [f2, ← hs1, node_withLinkedOutput]
                  · rw [f3, ← hs1, id_withLinkedOutput]
                  · rw [f4, ← hs1, vsocket_withLinkedOutput]
                  · rw [f5, ← hs1, linkedGroupInputs_withLinkedOutput]
                  · rw [f6, ← hs1,
                      linkedSockets_withLinkedOutput_input s0 _ hs0k,
                      expectedInOn_cons_hit t l rest l.dstNode l.dstSocket rfl rfl,
                      hlsrc]
                    show s0.linkedSockets ++ [outSocketId t a m] ++
                        expectedInOn t rest l.dstNode l.dstSocket =
                      s0.linkedSockets ++ (srcSocketId t (VLinkSrc.nodeOutput a m) ::
                        expectedInOn t rest l.dstNode l.dstSocket)
                    rw [List.append_assoc]
                    rfl
                · have hne1 : inSocketId t n k ≠
                      inSocketId t l.dstNode l.dstSocket := by
                    intro he
                    obtain ⟨e1, e2⟩ := inSocketId_inj t hn hk hnD hkD he
                    exact hhit ⟨e1.symm, e2.symm⟩
                  have hne2 : inSocketId t n k ≠ outSocketId t a m :=
                    inSocketId_ne_outSocketId t hn hk hnS hmS
                  have hcs := connect_sockets_other st (outSocketId t a m)
                    (inSocketId t l.dstNode l.dstSocket) (inSocketId t n k)
                    hne2 hne1
                  rw [hcs] at hs1
                  refine ⟨s1, s, hs1, hs, f1, f2, f3, f4, f5, ?_⟩
                  rw [f6, expectedInOn_cons_miss t l rest n k hhit]
              · intro a' vn' m' ha' hm'
                obtain ⟨s1, s, hs1, hs, f1, f2, f3, f4, f5⟩ := cOut a' vn' m' ha' hm'
                by_cases hhit : a = a' ∧ m = m'
                · obtain ⟨hh1, hh2⟩ := hhit
                  subst hh1
                  subst hh2
                  obtain ⟨s0, hs0, hs0k⟩ :=
                    (isOutputAt_iff st (outSocketId t a m)).mp
                      (hkf.2 a vnS m hnS hmS)
                  have hcs := connect_sockets_at_o st (outSocketId t a m)
                    (inSocketId t l.dstNode l.dstSocket) hguard
                  rw [hs0] at hcs
                  rw [hcs] at hs1
                  injection hs1 with hs1
                  refine ⟨s0, s, hs0, hs, f1, ?_, ?_, ?_, ?_⟩
                  · rw [f2, ← hs1, node_withLinkedInput]
                  · rw [f3, ← hs1, id_withLinkedInput]
                  · rw [f4, ← hs1, vsocket_withLinkedInput]
                  · rw [f5, ← hs1,
                      linkedSockets_withLinkedInput_output s0 _ hs0k,
                      expectedOutOn_cons_hit t l rest a m
                        (by unfold srcIs; rw [hlsrc]; simp)]
                    rw [List.append_assoc]
                    rfl
                · have hne1 : outSocketId t a' m' ≠ outSocketId t a m := by
                    intro he
                    obtain ⟨e1, e2⟩ := outSocketId_inj t ha' hm' hnS hmS he
                    exact hhit ⟨e1.symm, e2.symm⟩
                  have hne2 : outSocketId t a' m' ≠
                      inSocketId t l.dstNode l.dstSocket := by
                    intro he
                    exact (inSocketId_ne_outSocketId t hnD hkD ha' hm') he.symm
                  have hcs := connect_sockets_other st (outSocketId t a m)
                    (inSocketId t l.dstNode l.dstSocket) (outSocketId t a' m')
                    hne1 hne2
                  rw [hcs] at hs1
                  refine ⟨s1, s, hs1, hs, f1, f2, f3, f4, ?_⟩
                  rw [f5, expectedOutOn_cons_miss t l rest a' m'
                    (by unfold srcIs; rw [hlsrc]; simp; intro he1; omega)]

theorem reconcileGroups_plain_entries (tid : Nat) (links : List VLink) :
    ∀ es : List ScopeEntry, (∀ e ∈ es, ∃ nid, e = ScopeEntry.plainNode nid) →
      ∀ gIdx st, reconcileGroups tid links es gIdx st = st := by
  intro es
  induction es with
  | nil =>
      intro _ gIdx st
      rfl
  | cons e rest ih =>
      intro hp gIdx st
      obtain ⟨nid, he⟩ := hp e (List.mem_cons_self e rest)
      subst he
      unfold reconcileGroups
      rw [ih (fun e' h' => hp e' (List.mem_cons_of_mem _ h'))]
      rfl

theorem walk0_node_at (t : VirtualNodeTree) (tid n : Nat) (vn : VNode)
    (hn : t.nodes[n]? = some vn) :
    (plainWalk tid t.nodes 0 none initialGraph).1.node_by_id[n]? =
      some ⟨⟨tid, n⟩, none, n,
        (List.range vn.numInputs).map (fun k => inSocketId t n k),
        (List.range vn.numOutputs).map (fun m => outSocketId t n m)⟩ := by
  have h := plainWalk_node_at tid t.nodes 0 none initialGraph n vn hn
  have e1 : initialGraph.node_by_id.length + n = n := by
    show 0 + n = n
    omega
  have e2 : (0 : Nat) + n = n := by omega
  have e3 : initialGraph.sockets_by_id.length + aritySum (t.nodes.take n) =
      socketOffset t n := by
    show 0 + aritySum (t.nodes.take n) = _
    unfold socketOffset
    omega
  rw [e1, e2, e3] at h
  have eout : (List.range vn.numOutputs).map
        (fun k => socketOffset t n + vn.numInputs + k) =
      (List.range vn.numOutputs).map (fun m => outSocketId t n m) := by
    apply List.map_congr_left
    intro a _
    unfold outSocketId
    rw [numInputsAt_of_some t n vn hn]
  rw [h, ← eout]
  rfl

theorem walk0_socket_in (t : VirtualNodeTree) (tid n k : Nat) (vn : VNode)
    (hn : t.nodes[n]? = some vn) (hk : k < vn.numInputs) :
    (plainWalk tid t.nodes 0 none initialGraph).1.sockets_by_id[inSocketId t n k]? =
      some (XSocket.input n (inSocketId t n k) ⟨tid, n, k⟩ [] []) := by
  have h := plainWalk_socket_in tid t.nodes 0 none initialGraph n vn k hn hk
  have e1 : initialGraph.node_by_id.length + n = n := by
    show 0 + n = n
    omega
  have e3 : initialGraph.sockets_by_id.length + aritySum (t.nodes.take n) =
      socketOffset t n := by
    show 0 + aritySum (t.nodes.take n) = _
    unfold socketOffset
    omega
  have e2 : (0 : Nat) + n = n := by omega
  rw [e1, e2, e3] at h
  exact h

theorem walk0_socket_out (t : VirtualNodeTree) (tid n m : Nat) (vn : VNode)
    (hn : t.nodes[n]? = some vn) (hm : m < vn.numOutputs) :
    (plainWalk tid t.nodes 0 none initialGraph).1.sockets_by_id[outSocketId t n m]? =
      some (XSocket.output n (outSocketId t n m) ⟨tid, n, m⟩ []) := by
  have h := plainWalk_socket_out tid t.nodes 0 none initialGraph n vn m hn hm
  have e1 : initialGraph.node_by_id.length + n = n := by
    show 0 + n = n
    omega
  have e3 : initialGraph.sockets_by_id.length + aritySum (t.nodes.take n) =
      socketOffset t n := by
    show 0 + aritySum (t.nodes.take n) = _
    unfold socketOffset
    omega
  have e2 : (0 : Nat) + n = n := by omega
  rw [e1, e2, e3] at h
  have e4 : socketOffset t n + vn.numInputs = socketOffset t n + numInputsAt t n := by
    rw [numInputsAt_of_some t n vn hn]
  rw [e4] at h
  exact h

theorem walk0_nodeFacts (t : VirtualNodeTree) (tid : Nat) :
    PlainNodeFacts t (plainWalk tid t.nodes 0 none initialGraph).1 := by
  intro n vn hn
  exact ⟨_, walk0_node_at t tid n vn hn, rfl, rfl⟩

theorem walk0_socketFacts (t : VirtualNodeTree) (tid : Nat) :
    PlainSocketFacts t (plainWalk tid t.nodes 0 none initialGraph).1 := by
  constructor
  · intro n vn k hn hk
    unfold isInputAt
    rw [walk0_socket_in t tid n k vn hn hk]
    rfl
  · intro a vn m ha hm
    unfold isOutputAt
    rw [walk0_socket_out t tid a m vn ha hm]
    rfl

theorem walk0_entries (t : VirtualNodeTree) (tid : Nat) :
    (plainWalk tid t.nodes 0 none initialGraph).2 = entriesFor t := by
  rw [plainWalk_entries]
  unfold entriesFor
  apply List.map_congr_left
  intro a _
  show ScopeEntry.plainNode (initialGraph.node_by_id.length + a) =
    ScopeEntry.plainNode a
  congr 1
  show 0 + a = a
  omega

theorem entriesFor_all_plain (t : VirtualNodeTree) :
    ∀ e ∈ entriesFor t, ∃ nid, e = ScopeEntry.plainNode nid := by
  intro e he
  unfold entriesFor at he
  obtain ⟨j, _, hj⟩ := List.mem_map.mp he
  exact ⟨j, hj.symm⟩

/-- C4: inlining a source tree with zero group nodes (and all link sources
on node outputs) produces a graph isomorphic to the source tree — the same
node count, per node the same socket counts in the same order, the same
link set (each input socket's linked outputs are exactly the sources of
the tree links into it, in declaration order, and dually for outputs),
zero parent markers and zero group inputs, and every inlined node has a
null parent marker. -/
theorem C4_nogroup_flattening (vtrees : BTreeVTreeMap) (rootId fuel : Nat)
    (t : VirtualNodeTree) (g : InlinedNodeTree)
    (hroot : vtrees rootId = some t)
    (hplain : ∀ vn ∈ t.nodes, vn.groupTree = none)
    (hsrc : ∀ l ∈ t.links, ∃ a m, l.src = VLinkSrc.nodeOutput a m)
    (hok : build vtrees rootId fuel = .ok g) :
    g.node_by_id.length = t.nodes.length ∧
    g.parent_nodes = [] ∧
    g.group_inputs = [] ∧
    g.sockets_by_id.length = aritySum t.nodes ∧
    (∀ n vn, t.nodes[n]? = some vn →
      ∃ xn, g.node_by_id[n]? = some xn ∧ xn.parent = none ∧ xn.id = n ∧
        xn.vnode = ⟨rootId, n⟩ ∧
        xn.inputs = (List.range vn.numInputs).map (fun k => inSocketId t n k) ∧
        xn.outputs = (List.range vn.numOutputs).map (fun m => outSocketId t n m)) ∧
    (∀ n vn k, t.nodes[n]? = some vn → k < vn.numInputs →
      ∃ s, g.sockets_by_id[inSocketId t n k]? = some s ∧ s.isInput = true ∧
        s.node = n ∧ s.vsocket = ⟨rootId, n, k⟩ ∧ s.linkedGroupInputs = [] ∧
        s.linkedSockets = expectedInOn t t.links n k) ∧
    (∀ a vn m, t.nodes[a]? = some vn → m < vn.numOutputs →
      ∃ s, g.sockets_by_id[outSocketId t a m]? = some s ∧ s.isOutput = true ∧
        s.node = a ∧ s.vsocket = ⟨rootId, a, m⟩ ∧
        s.linkedSockets = expectedOutOn t t.links a m) := by
  unfold build at hok
  rw [hroot] at hok
  simp only [] at hok
  cases fuel with
  | zero =>
      simp only [expandTree] at hok
      rw [except_map_error] at hok
      cases hok
  | succ fuel =>
      simp only [expandTree] at hok
      rw [expandNodes_plain (expandTree vtrees fuel) vtrees rootId t.nodes hplain
        0 none initialGraph, except_bind_ok, walk0_entries t rootId] at hok
      cases hl : processLinks t (entriesFor t) t.links
          ((plainWalk rootId t.nodes 0 none initialGraph).1, []) with
      | error e =>
          rw [hl, except_map_error, except_map_error] at hok
          cases hok
      | ok pr2 =>
          rw [hl, except_map_ok, except_map_ok] at hok
          injection hok with hok
          rw [reconcileGroups_plain_entries rootId t.links (entriesFor t)
            (entriesFor_all_plain t) 0 pr2.1] at hok
          obtain ⟨c1, c2, c3, c4, cIn, cOut⟩ :=
            processLinks_plain_charact t t.links
              (plainWalk rootId t.nodes 0 none initialGraph).1 [] pr2 hl hsrc
              (walk0_nodeFacts t rootId) (walk0_socketFacts t rootId)
          subst hok
          refine ⟨?_, ?_, ?_, ?_, ?_, ?_, ?_⟩
          · rw [c1, plainWalk_nodes_length]
            show 0 + t.nodes.length = t.nodes.length
            omega
          · rw [c2, plainWalk_parent_nodes]
            rfl
          · rw [c3, plainWalk_group_inputs]
            rfl
          · rw [c4, plainWalk_sockets_length]
            show 0 + aritySum t.nodes = aritySum t.nodes
            omega
          · intro n vn hn
            refine ⟨⟨⟨rootId, n⟩, none, n,
              (List.range vn.numInputs).map (fun k => inSocketId t n k),
              (List.range vn.numOutputs).map (fun m => outSocketId t n m)⟩,
              ?_, rfl, rfl, rfl, rfl, rfl⟩
            rw [c1]
            exact walk0_node_at t rootId n vn hn
          · intro n vn k hn hk
            obtain ⟨s0, s, hs0, hs, f1, f2, f3, f4, f5, f6⟩ := cIn n vn k hn hk
            rw [walk0_socket_in t rootId n k vn hn hk] at hs0
            injection hs0 with hs0
            refine ⟨s, hs, f1, ?_, ?_, ?_, ?_⟩
            · rw [f2, ← hs0]
              rfl
            · rw [f4, ← hs0]
              rfl
            · rw [f5, ← hs0]
              rfl
            · rw [f6, ← hs0]
              show XSocket.linkedSockets (XSocket.input n (inSocketId t n k)
                ⟨rootId, n, k⟩ [] []) ++ expectedInOn t t.links n k =
                expectedInOn t t.links n k
              rfl
          · intro a vn m ha hm
            obtain ⟨s0, s, hs0, hs, f1, f2, f3, f4, f5⟩ := cOut a vn m ha hm
            rw [walk0_socket_out t rootId a m vn ha hm] at hs0
            injection hs0 with hs0
            refine ⟨s, hs, f1, ?_, ?_, ?_⟩
            · rw [f2, ← hs0]
              rfl
            · rw [f4, ← hs0]
              rfl
            · rw [f5, ← hs0]
              show XSocket.linkedSockets (XSocket.output a (outSocketId t a m)
                ⟨rootId, a, m⟩ []) ++ expectedOutOn t t.links a m =
                expectedOutOn t t.links a m
              rfl

/-- A concrete group-free tree: `A` (one output), `B` (one input), linked. -/
def c4Tree : VirtualNodeTree :=
  ⟨[⟨none, 0, 1⟩, ⟨none, 1, 0⟩], [⟨.nodeOutput 0 0, 1, 0⟩]⟩

def c4Cache : BTreeVTreeMap := fun tid =>
  match tid with
  | 0 => some c4Tree
  | _ => none

def c4Graph : InlinedNodeTree :=
  match build c4Cache 0 10 with
  | .ok g => g
  | .error _ => initialGraph

/-- Witness for C4 at the concrete group-free tree. -/
theorem C4_nogroup_flattening_witness :
    c4Graph.node_by_id.length = c4Tree.nodes.length ∧
    c4Graph.parent_nodes = [] ∧
    c4Graph.group_inputs = [] ∧
    c4Graph.sockets_by_id.length = aritySum c4Tree.nodes ∧
    (∀ n vn, c4Tree.nodes[n]? = some vn →
      ∃ xn, c4Graph.node_by_id[n]? = some xn ∧ xn.parent = none ∧ xn.id = n ∧
        xn.vnode = ⟨0, n⟩ ∧
        xn.inputs = (List.range vn.numInputs).map (fun k => inSocketId c4Tree n k) ∧
        xn.outputs = (List.range vn.numOutputs).map (fun m => outSocketId c4Tree n m)) ∧
    (∀ n vn k, c4Tree.nodes[n]? = some vn → k < vn.numInputs →
      ∃ s, c4Graph.sockets_by_id[inSocketId c4Tree n k]? = some s ∧
        s.isInput = true ∧
        s.node = n ∧ s.vsocket = ⟨0, n, k⟩ ∧ s.linkedGroupInputs = [] ∧
        s.linkedSockets = expectedInOn c4Tree c4Tree.links n k) ∧
    (∀ a vn m, c4Tree.nodes[a]? = some vn → m < vn.numOutputs →
      ∃ s, c4Graph.sockets_by_id[outSocketId c4Tree a m]? = some s ∧
        s.isOutput = true ∧
        s.node = a ∧ s.vsocket = ⟨0, a, m⟩ ∧
        s.linkedSockets = expectedOutOn c4Tree c4Tree.links a m) :=
  C4_nogroup_flattening c4Cache 0 10 c4Tree c4Graph rfl
    (by decide)
    (by
      intro l hl
      have he : l = ⟨.nodeOutput 0 0, 1, 0⟩ := by
        simpa [c4Tree] using hl
      subst he
      exact ⟨0, 0, rfl⟩)
    rfl
